import Mathlib

/-!
Verification of the Opspilot Kitchens layout solver and budget engine
(catalog.js / solver.js / budget.js), shallowly embedded in Lean 4.

Numbers: the source computes with JavaScript numbers; all quantities that
occur (integer millimetre lengths, their halves, euro prices, metre
conversions) are exact rationals, so the embedding uses ℚ.

Naming: source names are kept where Lean allows.  A zone's `end` field is
called `stop` because `end` is reserved in Lean.  JavaScript's stable
`Array.prototype.sort` is modelled by stable insertion sort on the same
key, which produces the identical list.
-/

namespace Opspilot

/-- Interval on a wall's axis, half-open `[start, stop)`.
Mirrors the `{ start, end }` objects of solver.js. -/
structure Zone where
  start : ℚ
  stop : ℚ
deriving Repr, DecidableEq

/-- A point lies in a zone (half-open interpretation). -/
def Zone.memQ (z : Zone) (x : ℚ) : Prop := z.start ≤ x ∧ x < z.stop

/-- Two zones have no common point (non-overlap of half-open intervals). -/
def Zone.disj (a b : Zone) : Prop := ∀ x : ℚ, a.memQ x → b.memQ x → False

/-- Exact partition of `[0, L)` by a collection of half-open zones: the
zones cover precisely the interval, and no two of them share a point. -/
def exactPartition (L : ℚ) (pieces : List Zone) : Prop :=
  (∀ x : ℚ, (0 ≤ x ∧ x < L) ↔ ∃ z ∈ pieces, z.memQ x) ∧ pieces.Pairwise Zone.disj

/-- `MODULE_TYPES` from catalog.js. -/
inductive ModuleType where
  | base
  | wall
  | tall
deriving Repr, DecidableEq

/-- One entry of `CATALOG` in catalog.js: ref, label, type, width (mm),
depth (mm), price (€), optional `anchor` obstacle type, `corner` flag. -/
structure CatalogItem where
  ref : String
  label : String
  type : ModuleType
  width : ℚ
  depth : ℚ
  price : ℚ
  anchor : Option String := none
  corner : Bool := false
deriving Repr, DecidableEq

instance : Inhabited CatalogItem :=
  ⟨{ ref := "", label := "", type := ModuleType.base, width := 0, depth := 0, price := 0 }⟩

/-- The kitchen module catalog (catalog.js `CATALOG`), in declaration order. -/
def CATALOG : List CatalogItem := [
  { ref := "B15", label := "Bajo 15", type := ModuleType.base, width := 150, depth := 600, price := 25 },
  { ref := "B30", label := "Bajo 30", type := ModuleType.base, width := 300, depth := 600, price := 35 },
  { ref := "B45", label := "Bajo 45", type := ModuleType.base, width := 450, depth := 600, price := 42 },
  { ref := "B60", label := "Bajo 60", type := ModuleType.base, width := 600, depth := 600, price := 50 },
  { ref := "B90", label := "Bajo 90", type := ModuleType.base, width := 900, depth := 600, price := 72 },
  { ref := "B120", label := "Bajo 120", type := ModuleType.base, width := 1200, depth := 600, price := 95 },
  { ref := "SINK60", label := "Fregadero", type := ModuleType.base, width := 600, depth := 600, price := 65, anchor := some "water_point" },
  { ref := "OVEN60", label := "Horno", type := ModuleType.base, width := 600, depth := 600, price := 60, anchor := some "smoke_outlet" },
  { ref := "CORNER90", label := "Rincón L", type := ModuleType.base, width := 930, depth := 930, price := 110, corner := true },
  { ref := "A15", label := "Alto 15", type := ModuleType.wall, width := 150, depth := 350, price := 22 },
  { ref := "A30", label := "Alto 30", type := ModuleType.wall, width := 300, depth := 350, price := 30 },
  { ref := "A45", label := "Alto 45", type := ModuleType.wall, width := 450, depth := 350, price := 38 },
  { ref := "A60", label := "Alto 60", type := ModuleType.wall, width := 600, depth := 350, price := 45 },
  { ref := "A90", label := "Alto 90", type := ModuleType.wall, width := 900, depth := 350, price := 65 },
  { ref := "A120", label := "Alto 120", type := ModuleType.wall, width := 1200, depth := 350, price := 85 },
  { ref := "T60", label := "Columna 60", type := ModuleType.tall, width := 600, depth := 600, price := 120 }]

/-- `HARDWARE` constant of catalog.js: label, unit price, per-module multiplier,
keyed in `Object.entries` (insertion) order. -/
structure HardwareKind where
  label : String
  price : ℚ
  perModule : ℚ
deriving Repr, DecidableEq

def HARDWARE : List (String × HardwareKind) :=
  [("HANDLE", { label := "Tirador", price := 5, perModule := 1 }),
   ("LEGS", { label := "Patas (x4)", price := 4, perModule := 1 }),
   ("HINGES", { label := "Bisagras (x2)", price := 3, perModule := 1 })]

/-- One entry of `LINEALS` in catalog.js. -/
structure LinealKind where
  label : String
  pricePerMeter : ℚ
deriving Repr, DecidableEq

/-- The `LINEALS` constant of catalog.js. -/
structure Lineals where
  COUNTERTOP : LinealKind
  PLINTH : LinealKind

def LINEALS : Lineals :=
  { COUNTERTOP := { label := "Encimera", pricePerMeter := 85 },
    PLINTH := { label := "Zócalo", pricePerMeter := 15 } }

/-- catalog.js `getCatalogItem` (a `find` returning null when absent). -/
def getCatalogItem (ref : String) : Option CatalogItem :=
  CATALOG.find? (fun c => decide (c.ref = ref))

/-- Stable sort by width descending, the comparator `(a, b) => b.width - a.width`. -/
def sortByWidthDesc (ms : List CatalogItem) : List CatalogItem :=
  List.insertionSort (fun a b => b.width ≤ a.width) ms

/-- catalog.js `getBaseModulesByWidth`: base modules that are neither
anchor-bound nor corner, sorted by width descending. -/
def getBaseModulesByWidth : List CatalogItem :=
  sortByWidthDesc (CATALOG.filter
    (fun c => decide (c.type = ModuleType.base ∧ c.anchor = none ∧ c.corner = false)))

/-- catalog.js `getWallModulesByWidth`: wall modules sorted by width descending. -/
def getWallModulesByWidth : List CatalogItem :=
  sortByWidthDesc (CATALOG.filter (fun c => decide (c.type = ModuleType.wall)))

/-- An obstacle as the solver reads it: type tag, centre position (mm),
width (mm).  The `id` field of state.js is never read by the solver. -/
structure Obstacle where
  type : String
  position : ℚ
  width : ℚ
deriving Repr, DecidableEq

/-- A wall of the room state: identifier, length (mm), obstacles. -/
structure Wall where
  id : String
  length : ℚ
  obstacles : List Obstacle
deriving Repr, DecidableEq

/-- The room state as the solver reads it: shape tag and walls. -/
structure RoomState where
  shape : String
  walls : List Wall
deriving Repr, DecidableEq

/-- A placed module, as pushed by solver.js into `placed`. -/
structure PlacedModule where
  ref : String
  type : ModuleType
  wallId : String
  position : ℚ
  width : ℚ
  label : String
  price : ℚ
  anchor : Option String := none
  corner : Bool := false
deriving Repr, DecidableEq

/-- The half-open footprint `[position, position + width)` of a placed module. -/
def moduleZone (m : PlacedModule) : Zone := ⟨m.position, m.position + m.width⟩

/-- A module produced by the greedy fill pass: base category with neither
the anchor nor the corner flag set. -/
def isGreedyModule (m : PlacedModule) : Prop :=
  m.type = ModuleType.base ∧ m.anchor = none ∧ m.corner = false

/-- Stable sort of zones by start ascending (`(a, b) => a.start - b.start`). -/
def sortZones (zs : List Zone) : List Zone :=
  List.insertionSort (fun a b => a.start ≤ b.start) zs

/-- solver.js `buildBlockedZones`: doors and columns block furniture, the
width split symmetrically around the centre; then sorted by start. -/
def buildBlockedZones (obstacles : List Obstacle) : List Zone :=
  sortZones (obstacles.filterMap (fun obs =>
    if obs.type = "door" ∨ obs.type = "column" then
      some ⟨obs.position - obs.width / 2, obs.position + obs.width / 2⟩
    else none))

/-- solver.js `isConflict`: does `[start, stop)` overlap any blocked zone. -/
def isConflict (start stop : ℚ) (blockedZones : List Zone) : Bool :=
  blockedZones.any (fun z => decide (start < z.stop ∧ stop > z.start))

/-- The merging walk of solver.js `mergeZones`: `cur` is the accumulator
whose `end` is grown by `Math.max` whenever the next zone starts at or
before it; otherwise `cur` is emitted and the next zone starts a new
accumulator. -/
def mergeRun (cur : Zone) : List Zone → List Zone
  | [] => [cur]
  | z :: rest =>
    if z.start ≤ cur.stop then mergeRun ⟨cur.start, max cur.stop z.stop⟩ rest
    else cur :: mergeRun z rest

/-- solver.js `mergeZones`: sort by start, then merge touching/overlapping
zones in one walk. -/
def mergeZones (zones : List Zone) : List Zone :=
  match sortZones zones with
  | [] => []
  | z :: rest => mergeRun z rest

/-- The sweep loop of solver.js `findFreeSegments`: emit the gap before each
zone, advance the cursor to `max cursor zone.end`, and emit a trailing
segment if the cursor is still below the wall length. -/
def sweep (wallLength : ℚ) : ℚ → List Zone → List Zone
  | cursor, [] => if cursor < wallLength then [⟨cursor, wallLength⟩] else []
  | cursor, z :: rest =>
    (if cursor < z.start then [⟨cursor, z.start⟩] else []) ++
      sweep wallLength (max cursor z.stop) rest

/-- solver.js `findFreeSegments`. -/
def findFreeSegments (wallLength : ℚ) (occupiedZones : List Zone) : List Zone :=
  sweep wallLength 0 (mergeZones occupiedZones)

/-- The `SINK60` catalog lookup performed inside `generateLayout`. -/
def sinkItem : CatalogItem :=
  (CATALOG.find? (fun c => decide (c.ref = "SINK60"))).getD default

/-- The `OVEN60` catalog lookup performed inside `generateLayout`. -/
def ovenItem : CatalogItem :=
  (CATALOG.find? (fun c => decide (c.ref = "OVEN60"))).getD default

/-- The `CORNER90` catalog lookup performed inside `generateLayout`. -/
def cornerItem : CatalogItem :=
  (CATALOG.find? (fun c => decide (c.ref = "CORNER90"))).getD default

/-- Diagnostic for a sink whose centred position overlaps a blocked zone. -/
def sinkBlockedMsg (wallId : String) (pos : ℚ) : String :=
  "Conflicto: La toma de agua en " ++ wallId ++ " (pos " ++ toString pos ++ "mm) está obstruida."

/-- Diagnostic for a sink that does not fit inside the wall bounds. -/
def sinkBoundsMsg (wallId : String) (pos : ℚ) : String :=
  "Conflicto: Fregadero no cabe en " ++ wallId ++ " (pos " ++ toString pos ++ "mm)."

/-- Diagnostic for an oven whose centred position overlaps a blocked zone. -/
def ovenBlockedMsg (wallId : String) (pos : ℚ) : String :=
  "Conflicto: La salida de humos en " ++ wallId ++ " (pos " ++ toString pos ++ "mm) está obstruida."

/-- Diagnostic for an oven that does not fit inside the wall bounds. -/
def ovenBoundsMsg (wallId : String) (pos : ℚ) : String :=
  "Conflicto: Horno no cabe en " ++ wallId ++ " (pos " ++ toString pos ++ "mm)."

/-- One water-point iteration of the anchor pass: either a placed sink
(`inl`) or the diagnostic string pushed to `errors` (`inr`).  The conflict
check runs before the bounds check, as in the source. -/
def trySink (wall : Wall) (blocked : List Zone) (wp : Obstacle) : Sum PlacedModule String :=
  let sinkStart := wp.position - sinkItem.width / 2
  let sinkEnd := sinkStart + sinkItem.width
  if isConflict sinkStart sinkEnd blocked then Sum.inr (sinkBlockedMsg wall.id wp.position)
  else if sinkStart < 0 ∨ sinkEnd > wall.length then Sum.inr (sinkBoundsMsg wall.id wp.position)
  else Sum.inl
    { ref := "SINK60", type := ModuleType.base, wallId := wall.id, position := sinkStart,
      width := sinkItem.width, label := sinkItem.label, price := sinkItem.price,
      anchor := some "water_point" }

/-- One smoke-outlet iteration of the anchor pass. -/
def tryOven (wall : Wall) (blocked : List Zone) (sp : Obstacle) : Sum PlacedModule String :=
  let ovenStart := sp.position - ovenItem.width / 2
  let ovenEnd := ovenStart + ovenItem.width
  if isConflict ovenStart ovenEnd blocked then Sum.inr (ovenBlockedMsg wall.id sp.position)
  else if ovenStart < 0 ∨ ovenEnd > wall.length then Sum.inr (ovenBoundsMsg wall.id sp.position)
  else Sum.inl
    { ref := "OVEN60", type := ModuleType.base, wallId := wall.id, position := ovenStart,
      width := ovenItem.width, label := ovenItem.label, price := ovenItem.price,
      anchor := some "smoke_outlet" }

/-- Step 2 of `generateLayout` for one wall: water points then smoke
outlets, in obstacle order, each yielding a module or a diagnostic. -/
def wallAnchorResults (wall : Wall) : List (Sum PlacedModule String) :=
  let blocked := buildBlockedZones wall.obstacles
  (wall.obstacles.filter (fun o => decide (o.type = "water_point"))).map (trySink wall blocked)
    ++ (wall.obstacles.filter (fun o => decide (o.type = "smoke_outlet"))).map (tryOven wall blocked)

/-- The modules pushed by the anchor pass, across walls in wall order. -/
def anchorsPlaced (state : RoomState) : List PlacedModule :=
  state.walls.flatMap (fun w => (wallAnchorResults w).filterMap (fun r =>
    match r with
    | Sum.inl m => some m
    | Sum.inr _ => none))

/-- The diagnostics pushed by the anchor pass (the only writes to `errors`
anywhere in `generateLayout`), across walls in wall order. -/
def anchorErrors (state : RoomState) : List String :=
  state.walls.flatMap (fun w => (wallAnchorResults w).filterMap (fun r =>
    match r with
    | Sum.inl _ => none
    | Sum.inr e => some e))

/-- The corner module pushed in step 3 of `generateLayout`. -/
def cornerModule : PlacedModule :=
  { ref := "CORNER90", type := ModuleType.base, wallId := "corner-AB", position := 0,
    width := cornerItem.width, label := cornerItem.label, price := cornerItem.price,
    corner := true }

/-- Step 3 of `generateLayout`: the corner module is appended for L- and
U-shaped rooms (guarded by `if (cornerItem)`, which always succeeds). -/
def cornerPlacement (shape : String) : List PlacedModule :=
  if shape = "L-SHAPED" ∨ shape = "U-SHAPED" then
    if (CATALOG.find? (fun c => decide (c.ref = "CORNER90"))).isSome then [cornerModule] else []
  else []

/-- The corner occupation zones added for a wall in step 4 (on wall-A and
wall-B only, when the room has a corner). -/
def cornerOccupied (shape : String) (wallId : String) : List Zone :=
  if shape = "L-SHAPED" ∨ shape = "U-SHAPED" then
    if (CATALOG.find? (fun c => decide (c.ref = "CORNER90"))).isSome then
      (if wallId = "wall-A" then [⟨0, cornerItem.width⟩] else []) ++
        (if wallId = "wall-B" then [⟨0, cornerItem.width⟩] else [])
    else []
  else []

/-- The combined occupied zones for a wall in step 4: footprints of already
placed base modules on this wall, the corner occupation, and the blocked
zones, sorted by start. -/
def occupiedZonesFor (shape : String) (placed : List PlacedModule) (wall : Wall) : List Zone :=
  let occupiedByModules :=
    ((placed.filter (fun m => decide (m.wallId = wall.id ∧ m.type = ModuleType.base))).map moduleZone)
      ++ cornerOccupied shape wall.id
  let blocked := buildBlockedZones wall.obstacles
  sortZones (blocked ++ occupiedByModules)

/-- The module object pushed by the greedy fill loop. -/
def mkGreedy (wallId : String) (cursor : ℚ) (m : CatalogItem) : PlacedModule :=
  { ref := m.ref, type := ModuleType.base, wallId := wallId, position := cursor,
    width := m.width, label := m.label, price := m.price }

/-- The greedy fill `while` loop of step 4, for one free segment: place the
first (hence widest) catalog module that fits the remaining space, advance
the cursor by its width, stop when none fits or the segment is consumed. -/
def fillSegment (wallId : String) (segEnd : ℚ) (cursor : ℚ) : List PlacedModule :=
  if h : cursor < segEnd then
    match hfind : getBaseModulesByWidth.find? (fun m => decide (m.width ≤ segEnd - cursor)) with
    | none => []
    | some m => mkGreedy wallId cursor m :: fillSegment wallId segEnd (cursor + m.width)
  else []
termination_by (⌈segEnd - cursor⌉).toNat
decreasing_by
  have hmem := List.mem_of_find?_eq_some hfind
  have hlist : getBaseModulesByWidth =
      [{ ref := "B120", label := "Bajo 120", type := ModuleType.base, width := 1200, depth := 600, price := 95 },
       { ref := "B90", label := "Bajo 90", type := ModuleType.base, width := 900, depth := 600, price := 72 },
       { ref := "B60", label := "Bajo 60", type := ModuleType.base, width := 600, depth := 600, price := 50 },
       { ref := "B45", label := "Bajo 45", type := ModuleType.base, width := 450, depth := 600, price := 42 },
       { ref := "B30", label := "Bajo 30", type := ModuleType.base, width := 300, depth := 600, price := 35 },
       { ref := "B15", label := "Bajo 15", type := ModuleType.base, width := 150, depth := 600, price := 25 }] := by
    norm_num [getBaseModulesByWidth, sortByWidthDesc, CATALOG, List.filter,
      List.insertionSort, List.orderedInsert]
  have hw : (150 : ℚ) ≤ m.width := by
    rw [hlist] at hmem
    simp only [List.mem_cons, List.not_mem_nil, or_false] at hmem
    rcases hmem with h2 | h2 | h2 | h2 | h2 | h2 <;> subst h2 <;> norm_num
  have hpos : (0 : ℤ) < ⌈segEnd - cursor⌉ := by
    rw [Int.lt_iff_add_one_le, zero_add, Int.le_ceil_iff]
    simpa using h
  rw [Int.toNat_lt_toNat hpos]
  have h1 : segEnd - (cursor + m.width) ≤ segEnd - cursor - 150 := by linarith
  calc ⌈segEnd - (cursor + m.width)⌉ ≤ ⌈segEnd - cursor - (150 : ℤ)⌉ := by
        apply Int.ceil_le_ceil
        simpa using h1
    _ = ⌈segEnd - cursor⌉ - 150 := by rw [Int.ceil_sub_int]
    _ < ⌈segEnd - cursor⌉ := by omega

/-- Step 4 of `generateLayout` for one wall, given the modules placed so
far: derive the free segments and greedy-fill each. -/
def greedyWall (shape : String) (placed : List PlacedModule) (wall : Wall) : List PlacedModule :=
  (findFreeSegments wall.length (occupiedZonesFor shape placed wall)).flatMap
    (fun seg => fillSegment wall.id seg.stop seg.start)

/-- Step 4 across walls: the accumulated `placed` list threads through, so
each wall's fill sees all modules placed before it. -/
def greedyPass (shape : String) (walls : List Wall) (placed : List PlacedModule) : List PlacedModule :=
  walls.foldl (fun acc wall => acc ++ greedyWall shape acc wall) placed

/-- The window intervals of a wall (`center ± width/2`), step 5. -/
def windowZones (obstacles : List Obstacle) : List Zone :=
  (obstacles.filter (fun o => decide (o.type = "window"))).map (fun o =>
    ⟨o.position - o.width / 2, o.position + o.width / 2⟩)

/-- Step 5 window test: does `[baseStart, baseEnd)` overlap some window. -/
def overlapsWindow (windows : List Zone) (baseStart baseEnd : ℚ) : Bool :=
  windows.any (fun w => decide (baseStart < w.stop ∧ baseEnd > w.start))

/-- The module object pushed by the wall-mirror pass. -/
def mkWallModule (wallId : String) (position : ℚ) (m : CatalogItem) : PlacedModule :=
  { ref := m.ref, type := ModuleType.wall, wallId := wallId, position := position,
    width := m.width, label := m.label, price := m.price }

/-- Step 5 for one base module: skip under windows, else mirror with the
exact-width wall module, falling back to the widest one that is no wider. -/
def mirrorOne (wallId : String) (windows : List Zone) (baseMod : PlacedModule) : List PlacedModule :=
  let baseStart := baseMod.position
  let baseEnd := baseMod.position + baseMod.width
  if overlapsWindow windows baseStart baseEnd then []
  else
    match getWallModulesByWidth.find? (fun wm => decide (wm.width = baseMod.width)) with
    | some matchingWall => [mkWallModule wallId baseMod.position matchingWall]
    | none =>
      match getWallModulesByWidth.find? (fun wm => decide (wm.width ≤ baseMod.width)) with
      | some fitWall => [mkWallModule wallId baseMod.position fitWall]
      | none => []

/-- Step 5 for one wall: every base module already placed with this wall's
identifier is a mirroring input. -/
def mirrorWall (placed : List PlacedModule) (wall : Wall) : List PlacedModule :=
  let windows := windowZones wall.obstacles
  (placed.filter (fun m => decide (m.wallId = wall.id ∧ m.type = ModuleType.base))).flatMap
    (mirrorOne wall.id windows)

/-- The placement list after steps 2 to 4 (anchors, corner, greedy fill). -/
def basePlaced (state : RoomState) : List PlacedModule :=
  greedyPass state.shape state.walls (anchorsPlaced state ++ cornerPlacement state.shape)

/-- solver.js `generateLayout`: the full placement list (anchors, corner,
greedy fill, then the wall-mirror pass) together with the diagnostics. -/
def generateLayout (state : RoomState) : List PlacedModule × List String :=
  (basePlaced state ++ state.walls.flatMap (mirrorWall (basePlaced state)),
   anchorErrors state)

/-- JavaScript `Math.round` (half-up) on an exact rational. -/
def jsRound (x : ℚ) : ℤ := ⌊x + 1 / 2⌋

/-- `Math.round(x * 100) / 100`: rounding to two decimal places. -/
def round2 (x : ℚ) : ℚ := (jsRound (x * 100) : ℚ) / 100

/-- One line of the budget breakdown (budget.js).  `type` is present on
module lines only. -/
structure BudgetLine where
  qty : ℚ
  ref : String
  label : String
  unitPrice : ℚ
  total : ℚ
  type : Option ModuleType := none
deriving Repr, DecidableEq

/-- The budget object returned by budget.js `calculateBudget`. -/
structure Budget where
  moduleLines : List BudgetLine
  hardwareLines : List BudgetLine
  linealLines : List BudgetLine
  modulesTotal : ℚ
  hardwareTotal : ℚ
  linealTotal : ℚ
  totalPrice : ℚ
  moduleCount : ℕ
  baseLinealM : ℚ
deriving Repr, DecidableEq

/-- budget.js `emptyBudget`. -/
def emptyBudget : Budget :=
  { moduleLines := [], hardwareLines := [], linealLines := [], modulesTotal := 0,
    hardwareTotal := 0, linealTotal := 0, totalPrice := 0, moduleCount := 0, baseLinealM := 0 }

/-- The distinct refs of a placement list in first-occurrence order: the
key order of the `counts` object built by `calculateBudget`. -/
def uniqueRefs (mods : List PlacedModule) : List String :=
  mods.foldl (fun acc m => if m.ref ∈ acc then acc else acc ++ [m.ref]) []

/-- The `moduleLines` built by `calculateBudget`: per ref, the quantity and
the label/price of its first occurrence. -/
def moduleLinesOf (mods : List PlacedModule) : List BudgetLine :=
  (uniqueRefs mods).map (fun r =>
    match mods.find? (fun m => decide (m.ref = r)) with
    | some m0 =>
      let qty : ℚ := ((mods.filter (fun m => decide (m.ref = r))).length : ℚ)
      { qty := qty, ref := r, label := m0.label, unitPrice := m0.price,
        total := qty * m0.price, type := some m0.type }
    | none => { qty := 0, ref := r, label := "", unitPrice := 0, total := 0 })

/-- budget.js `calculateBudget`.  The lineal line labels in the source also
embed the metre figure formatted with `toFixed(2)`; that cosmetic string
suffix is omitted here (no claim concerns it). -/
def calculateBudget (placedModules : List PlacedModule) : Budget :=
  if placedModules = [] then emptyBudget
  else
    let moduleLines := moduleLinesOf placedModules
    let modulesTotal := (moduleLines.map (fun l => l.total)).sum
    let totalModuleCount := placedModules.length
    let hardwareLines := HARDWARE.map (fun kv =>
      let qty : ℚ := (totalModuleCount : ℚ) * kv.2.perModule
      { qty := qty, ref := kv.1, label := kv.2.label, unitPrice := kv.2.price,
        total := qty * kv.2.price : BudgetLine })
    let hardwareTotal := (hardwareLines.map (fun l => l.total)).sum
    let baseMods := placedModules.filter (fun m => decide (m.type = ModuleType.base))
    let baseLinealMM := (baseMods.map (fun m => m.width)).sum
    let baseLinealM := baseLinealMM / 1000
    let ctCost := round2 (baseLinealM * LINEALS.COUNTERTOP.pricePerMeter)
    let plCost := round2 (baseLinealM * LINEALS.PLINTH.pricePerMeter)
    let linealLines : List BudgetLine :=
      [{ qty := 1, ref := "COUNTERTOP", label := LINEALS.COUNTERTOP.label, unitPrice := ctCost, total := ctCost },
       { qty := 1, ref := "PLINTH", label := LINEALS.PLINTH.label, unitPrice := plCost, total := plCost }]
    let linealTotal := ctCost + plCost
    let totalPrice := modulesTotal + hardwareTotal + linealTotal
    { moduleLines := moduleLines, hardwareLines := hardwareLines, linealLines := linealLines,
      modulesTotal := modulesTotal, hardwareTotal := hardwareTotal, linealTotal := linealTotal,
      totalPrice := round2 totalPrice, moduleCount := totalModuleCount, baseLinealM := baseLinealM }

/-! ### Zone algebra lemmas -/

instance : IsTotal Zone (fun a b => a.start ≤ b.start) :=
  ⟨fun a b => le_total a.start b.start⟩

instance : IsTrans Zone (fun a b => a.start ≤ b.start) :=
  ⟨fun _ _ _ h1 h2 => le_trans h1 h2⟩

theorem sortZones_sorted (zs : List Zone) :
    (sortZones zs).Pairwise (fun a b => a.start ≤ b.start) :=
  List.sorted_insertionSort _ zs

theorem sortZones_perm (zs : List Zone) : (sortZones zs).Perm zs :=
  List.perm_insertionSort _ zs

theorem mergeRun_starts (cur : Zone) (l : List Zone) :
    ∀ y ∈ mergeRun cur l, y.start = cur.start ∨ ∃ z ∈ l, y.start = z.start := by
  induction l generalizing cur with
  | nil =>
    intro y hy
    simp only [mergeRun, List.mem_singleton] at hy
    subst hy; exact Or.inl rfl
  | cons z rest ih =>
    intro y hy
    simp only [mergeRun] at hy
    by_cases h : z.start ≤ cur.stop
    · rw [if_pos h] at hy
      rcases ih _ y hy with h1 | ⟨z', hz', h1⟩
      · exact Or.inl h1
      · exact Or.inr ⟨z', List.mem_cons_of_mem _ hz', h1⟩
    · rw [if_neg h] at hy
      rcases List.mem_cons.mp hy with h1 | h1
      · subst h1; exact Or.inl rfl
      · rcases ih z y h1 with h2 | ⟨z', hz', h2⟩
        · exact Or.inr ⟨z, List.mem_cons_self .., h2⟩
        · exact Or.inr ⟨z', List.mem_cons_of_mem _ hz', h2⟩

theorem mergeRun_pairwise (cur : Zone) (l : List Zone)
    (hsor : l.Pairwise (fun a b => a.start ≤ b.start))
    (hcur : ∀ z ∈ l, cur.start ≤ z.start) :
    (mergeRun cur l).Pairwise (fun a b => a.start ≤ b.start ∧ a.stop < b.start) := by
  induction l generalizing cur with
  | nil => simp [mergeRun]
  | cons z rest ih =>
    rcases List.pairwise_cons.mp hsor with ⟨hz, hrest⟩
    simp only [mergeRun]
    by_cases h : z.start ≤ cur.stop
    · rw [if_pos h]
      exact ih _ hrest (fun z' hz' => hcur z' (List.mem_cons_of_mem _ hz'))
    · rw [if_neg h]
      rw [List.pairwise_cons]
      refine ⟨?_, ih z hrest hz⟩
      intro y hy
      rcases mergeRun_starts z rest y hy with h1 | ⟨z', hz', h1⟩
      · rw [h1]
        exact ⟨hcur z (List.mem_cons_self ..), not_le.mp h⟩
      · rw [h1]
        exact ⟨hcur z' (List.mem_cons_of_mem _ hz'),
          lt_of_lt_of_le (not_le.mp h) (hz z' hz')⟩

theorem mergeRun_cover (cur : Zone) (l : List Zone)
    (hsor : l.Pairwise (fun a b => a.start ≤ b.start))
    (hcur : ∀ z ∈ l, cur.start ≤ z.start) (x : ℚ)
    (hx : cur.memQ x ∨ ∃ z ∈ l, z.memQ x) :
    ∃ y ∈ mergeRun cur l, y.memQ x := by
  induction l generalizing cur with
  | nil =>
    rcases hx with hx | ⟨z, hz, _⟩
    · exact ⟨cur, by simp [mergeRun], hx⟩
    · exact absurd hz (List.not_mem_nil z)
  | cons z rest ih =>
    rcases List.pairwise_cons.mp hsor with ⟨hz, hrest⟩
    simp only [mergeRun]
    by_cases h : z.start ≤ cur.stop
    · rw [if_pos h]
      refine ih ⟨cur.start, max cur.stop z.stop⟩ hrest
        (fun z' hz' => hcur z' (List.mem_cons_of_mem _ hz')) ?_
      rcases hx with hx | ⟨z', hz', hx⟩
      · exact Or.inl ⟨hx.1, lt_of_lt_of_le hx.2 (le_max_left _ _)⟩
      · rcases List.mem_cons.mp hz' with h1 | h1
        · subst h1
          exact Or.inl ⟨le_trans (hcur z' (List.mem_cons_self ..)) hx.1,
            lt_of_lt_of_le hx.2 (le_max_right _ _)⟩
        · exact Or.inr ⟨z', h1, hx⟩
    · rw [if_neg h]
      rcases hx with hx | ⟨z', hz', hx⟩
      · exact ⟨cur, List.mem_cons_self .., hx⟩
      · rcases List.mem_cons.mp hz' with h1 | h1
        · subst h1
          obtain ⟨y, hy, hyx⟩ := ih z' hrest hz (Or.inl hx)
          exact ⟨y, List.mem_cons_of_mem _ hy, hyx⟩
        · obtain ⟨y, hy, hyx⟩ := ih z hrest hz (Or.inr ⟨z', h1, hx⟩)
          exact ⟨y, List.mem_cons_of_mem _ hy, hyx⟩

theorem mergeRun_pres (Q : Zone → Prop)
    (hQ : ∀ a b : Zone, Q a → Q b → Q ⟨a.start, max a.stop b.stop⟩)
    (cur : Zone) (l : List Zone) (hc : Q cur) (hl : ∀ z ∈ l, Q z) :
    ∀ y ∈ mergeRun cur l, Q y := by
  induction l generalizing cur with
  | nil =>
    intro y hy
    simp only [mergeRun, List.mem_singleton] at hy
    subst hy; exact hc
  | cons z rest ih =>
    intro y hy
    simp only [mergeRun] at hy
    by_cases h : z.start ≤ cur.stop
    · rw [if_pos h] at hy
      exact ih _ (hQ cur z hc (hl z (List.mem_cons_self ..)))
        (fun z' hz' => hl z' (List.mem_cons_of_mem _ hz')) y hy
    · rw [if_neg h] at hy
      rcases List.mem_cons.mp hy with h1 | h1
      · subst h1; exact hc
      · exact ih z (hl z (List.mem_cons_self ..))
          (fun z' hz' => hl z' (List.mem_cons_of_mem _ hz')) y h1

theorem mergeZones_pairwise (zs : List Zone) :
    (mergeZones zs).Pairwise (fun a b => a.start ≤ b.start ∧ a.stop < b.start) := by
  unfold mergeZones
  cases hs : sortZones zs with
  | nil => simp
  | cons z rest =>
    have hsor := sortZones_sorted zs
    rw [hs, List.pairwise_cons] at hsor
    exact mergeRun_pairwise z rest hsor.2 hsor.1

theorem mergeZones_cover (zs : List Zone) (z : Zone) (hz : z ∈ zs) (x : ℚ)
    (hx : z.memQ x) : ∃ y ∈ mergeZones zs, y.memQ x := by
  have hz' : z ∈ sortZones zs := (sortZones_perm zs).mem_iff.mpr hz
  have hsor := sortZones_sorted zs
  unfold mergeZones
  cases hs : sortZones zs with
  | nil => rw [hs] at hz'; exact absurd hz' (List.not_mem_nil z)
  | cons z0 rest =>
    rw [hs, List.pairwise_cons] at hsor
    rw [hs] at hz'
    rcases List.mem_cons.mp hz' with h1 | h1
    · exact mergeRun_cover z0 rest hsor.2 hsor.1 x (Or.inl (h1 ▸ hx))
    · exact mergeRun_cover z0 rest hsor.2 hsor.1 x (Or.inr ⟨z, h1, hx⟩)

theorem mergeZones_pres (Q : Zone → Prop)
    (hQ : ∀ a b : Zone, Q a → Q b → Q ⟨a.start, max a.stop b.stop⟩)
    (zs : List Zone) (hall : ∀ z ∈ zs, Q z) :
    ∀ y ∈ mergeZones zs, Q y := by
  have hall' : ∀ z ∈ sortZones zs, Q z :=
    fun z hz => hall z ((sortZones_perm zs).mem_iff.mp hz)
  unfold mergeZones
  cases hs : sortZones zs with
  | nil => simp
  | cons z0 rest =>
    rw [hs] at hall'
    exact mergeRun_pres Q hQ z0 rest (hall' z0 (List.mem_cons_self ..))
      (fun z' hz' => hall' z' (List.mem_cons_of_mem _ hz'))

theorem mergeRun_of_chain (cur : Zone) (l : List Zone)
    (h : List.Chain' (fun a b => a.stop < b.start) (cur :: l)) :
    mergeRun cur l = cur :: l := by
  induction l generalizing cur with
  | nil => simp [mergeRun]
  | cons z rest ih =>
    rcases List.chain'_cons.mp h with ⟨h1, h2⟩
    simp only [mergeRun, if_neg (not_le.mpr h1)]
    rw [ih z h2]

theorem mergeZones_idem (zs : List Zone) :
    mergeZones (mergeZones zs) = mergeZones zs := by
  have hp := mergeZones_pairwise zs
  have hsorted : List.Sorted (fun a b : Zone => a.start ≤ b.start) (mergeZones zs) :=
    hp.imp (fun h => h.1)
  have h1 : sortZones (mergeZones zs) = mergeZones zs :=
    List.Sorted.insertionSort_eq hsorted
  have hchain : List.Chain' (fun a b : Zone => a.stop < b.start) (mergeZones zs) :=
    (hp.imp (fun h => h.2)).chain'
  conv_lhs => rw [mergeZones]
  cases hm : mergeZones zs with
  | nil => rw [hm] at h1; rw [h1]
  | cons z rest =>
    rw [hm] at h1 hchain
    rw [h1]
    exact mergeRun_of_chain z rest hchain

theorem disj_of_le (a b : Zone) (h : a.stop ≤ b.start) : a.disj b :=
  fun x hxa hxb => lt_irrefl x (lt_of_lt_of_le hxa.2 (le_trans h hxb.1))

/-! ### Sweep (free segment) lemmas -/

theorem sweep_start_ge (L : ℚ) (c : ℚ) (zs : List Zone) :
    ∀ f ∈ sweep L c zs, c ≤ f.start := by
  induction zs generalizing c with
  | nil =>
    intro f hf
    simp only [sweep] at hf
    by_cases h : c < L
    · rw [if_pos h] at hf
      rw [List.mem_singleton] at hf
      subst hf; exact le_refl _
    · rw [if_neg h] at hf
      exact absurd hf (List.not_mem_nil f)
  | cons z rest ih =>
    intro f hf
    simp only [sweep, List.mem_append] at hf
    rcases hf with hf | hf
    · by_cases h : c < z.start
      · rw [if_pos h, List.mem_singleton] at hf
        subst hf; exact le_refl _
      · rw [if_neg h] at hf
        exact absurd hf (List.not_mem_nil f)
    · exact le_trans (le_max_left _ _) (ih (max c z.stop) f hf)

theorem sweep_bounds (L : ℚ) (c : ℚ) (zs : List Zone) (hc : 0 ≤ c)
    (hz : ∀ z ∈ zs, z.start ≤ L) :
    ∀ f ∈ sweep L c zs, 0 ≤ f.start ∧ f.start < f.stop ∧ f.stop ≤ L := by
  induction zs generalizing c with
  | nil =>
    intro f hf
    simp only [sweep] at hf
    by_cases h : c < L
    · rw [if_pos h, List.mem_singleton] at hf
      subst hf; exact ⟨hc, h, le_refl _⟩
    · rw [if_neg h] at hf
      exact absurd hf (List.not_mem_nil f)
  | cons z rest ih =>
    intro f hf
    simp only [sweep, List.mem_append] at hf
    rcases hf with hf | hf
    · by_cases h : c < z.start
      · rw [if_pos h, List.mem_singleton] at hf
        subst hf; exact ⟨hc, h, hz z (List.mem_cons_self ..)⟩
      · rw [if_neg h] at hf
        exact absurd hf (List.not_mem_nil f)
    · exact ih (max c z.stop) (le_trans hc (le_max_left _ _))
        (fun z' hz' => hz z' (List.mem_cons_of_mem _ hz')) f hf

theorem sweep_disjoint (L : ℚ) (c : ℚ) (zs : List Zone)
    (hsor : zs.Pairwise (fun a b => a.start ≤ b.start)) :
    ∀ f ∈ sweep L c zs, ∀ z ∈ zs, f.disj z := by
  induction zs generalizing c with
  | nil => intro f _ z hz; exact absurd hz (List.not_mem_nil z)
  | cons z0 rest ih =>
    rcases List.pairwise_cons.mp hsor with ⟨h0, hrest⟩
    intro f hf z hz
    simp only [sweep, List.mem_append] at hf
    rcases hf with hf | hf
    · by_cases h : c < z0.start
      · rw [if_pos h, List.mem_singleton] at hf
        subst hf
        intro x hxf hxz
        rcases List.mem_cons.mp hz with h1 | h1
        · exact absurd hxf.2 (not_lt.mpr (h1 ▸ hxz.1))
        · exact absurd hxf.2 (not_lt.mpr (le_trans (h0 z h1) hxz.1))
      · rw [if_neg h] at hf
        exact absurd hf (List.not_mem_nil f)
    · rcases List.mem_cons.mp hz with h1 | h1
      · intro x hxf hxz
        have hge : z0.stop ≤ x :=
          le_trans (le_max_right c z0.stop)
            (le_trans (sweep_start_ge L (max c z0.stop) rest f hf) hxf.1)
        exact absurd (h1 ▸ hxz.2 : x < z0.stop) (not_lt.mpr hge)
      · exact ih (max c z0.stop) hrest f hf z h1

theorem sweep_free_pairwise (L : ℚ) (c : ℚ) (zs : List Zone)
    (hsor : zs.Pairwise (fun a b => a.start ≤ b.start))
    (hproper : ∀ z ∈ zs, z.start ≤ z.stop) :
    (sweep L c zs).Pairwise Zone.disj := by
  induction zs generalizing c with
  | nil =>
    simp only [sweep]
    split
    · exact List.pairwise_singleton _ _
    · exact List.Pairwise.nil
  | cons z0 rest ih =>
    rcases List.pairwise_cons.mp hsor with ⟨h0, hrest⟩
    simp only [sweep]
    rw [List.pairwise_append]
    refine ⟨?_, ih (max c z0.stop) hrest
      (fun z' hz' => hproper z' (List.mem_cons_of_mem _ hz')), ?_⟩
    · split
      · exact List.pairwise_singleton _ _
      · exact List.Pairwise.nil
    · intro a ha b hb
      by_cases h : c < z0.start
      · rw [if_pos h, List.mem_singleton] at ha
        subst ha
        intro x hxa hxb
        have hbx : z0.start ≤ x :=
          le_trans (hproper z0 (List.mem_cons_self ..))
            (le_trans (le_max_right c z0.stop)
              (le_trans (sweep_start_ge L (max c z0.stop) rest b hb) hxb.1))
        exact absurd hxa.2 (not_lt.mpr hbx)
      · rw [if_neg h] at ha
        exact absurd ha (List.not_mem_nil a)

theorem sweep_cover (L : ℚ) (c : ℚ) (zs : List Zone) (x : ℚ)
    (hcx : c ≤ x) (hxL : x < L) :
    (∃ f ∈ sweep L c zs, f.memQ x) ∨ ∃ z ∈ zs, z.memQ x := by
  induction zs generalizing c with
  | nil =>
    refine Or.inl ⟨⟨c, L⟩, ?_, hcx, hxL⟩
    simp only [sweep, if_pos (lt_of_le_of_lt hcx hxL), List.mem_singleton]
  | cons z rest ih =>
    by_cases h1 : x < z.start
    · have hcz : c < z.start := lt_of_le_of_lt hcx h1
      refine Or.inl ⟨⟨c, z.start⟩, ?_, hcx, h1⟩
      simp only [sweep, if_pos hcz, List.mem_append, List.mem_singleton]
      exact Or.inl trivial
    · by_cases h2 : x < z.stop
      · exact Or.inr ⟨z, List.mem_cons_self .., not_lt.mp h1, h2⟩
      · have hx' : max c z.stop ≤ x := max_le hcx (not_lt.mp h2)
        rcases ih (max c z.stop) hx' with ⟨f, hf, hfx⟩ | ⟨z', hz', hzx⟩
        · refine Or.inl ⟨f, ?_, hfx⟩
          simp only [sweep, List.mem_append]
          exact Or.inr hf
        · exact Or.inr ⟨z', List.mem_cons_of_mem _ hz', hzx⟩

theorem findFreeSegments_partition (L : ℚ) (zs : List Zone)
    (hz : ∀ z ∈ zs, 0 ≤ z.start ∧ z.start ≤ z.stop ∧ z.stop ≤ L) :
    exactPartition L (findFreeSegments L zs ++ mergeZones zs) := by
  have hM : ∀ y ∈ mergeZones zs, 0 ≤ y.start ∧ y.start ≤ y.stop ∧ y.stop ≤ L := by
    apply mergeZones_pres _ _ zs hz
    intro a b ha hb
    exact ⟨ha.1, le_trans ha.2.1 (le_max_left _ _), max_le ha.2.2 hb.2.2⟩
  have hsorM : (mergeZones zs).Pairwise (fun a b => a.start ≤ b.start) :=
    (mergeZones_pairwise zs).imp (fun h => h.1)
  have hstartM : ∀ y ∈ mergeZones zs, y.start ≤ L :=
    fun y hy => le_trans (hM y hy).2.1 (hM y hy).2.2
  constructor
  · intro x
    constructor
    · intro hx
      rcases sweep_cover L 0 (mergeZones zs) x hx.1 hx.2 with ⟨f, hf, hfx⟩ | ⟨z, hzM, hzx⟩
      · exact ⟨f, List.mem_append_left _ hf, hfx⟩
      · exact ⟨z, List.mem_append_right _ hzM, hzx⟩
    · intro hx
      obtain ⟨z, hzm, hzx⟩ := hx
      rcases List.mem_append.mp hzm with h1 | h1
      · have hb := sweep_bounds L 0 (mergeZones zs) (le_refl 0) hstartM z h1
        exact ⟨le_trans hb.1 hzx.1, lt_of_lt_of_le hzx.2 hb.2.2⟩
      · have hb := hM z h1
        exact ⟨le_trans hb.1 hzx.1, lt_of_lt_of_le hzx.2 hb.2.2⟩
  · rw [List.pairwise_append]
    refine ⟨sweep_free_pairwise L 0 (mergeZones zs) hsorM (fun y hy => (hM y hy).2.1),
      (mergeZones_pairwise zs).imp (fun h => disj_of_le _ _ (le_of_lt h.2)), ?_⟩
    intro a ha b hb
    exact sweep_disjoint L 0 (mergeZones zs) hsorM a ha b hb

/-! ### Catalog evaluation lemmas -/

theorem getBaseModulesByWidth_eq : getBaseModulesByWidth =
    [{ ref := "B120", label := "Bajo 120", type := ModuleType.base, width := 1200, depth := 600, price := 95 },
     { ref := "B90", label := "Bajo 90", type := ModuleType.base, width := 900, depth := 600, price := 72 },
     { ref := "B60", label := "Bajo 60", type := ModuleType.base, width := 600, depth := 600, price := 50 },
     { ref := "B45", label := "Bajo 45", type := ModuleType.base, width := 450, depth := 600, price := 42 },
     { ref := "B30", label := "Bajo 30", type := ModuleType.base, width := 300, depth := 600, price := 35 },
     { ref := "B15", label := "Bajo 15", type := ModuleType.base, width := 150, depth := 600, price := 25 }] := by
  norm_num [getBaseModulesByWidth, sortByWidthDesc, CATALOG, List.filter,
    List.insertionSort, List.orderedInsert]

theorem getWallModulesByWidth_eq : getWallModulesByWidth =
    [{ ref := "A120", label := "Alto 120", type := ModuleType.wall, width := 1200, depth := 350, price := 85 },
     { ref := "A90", label := "Alto 90", type := ModuleType.wall, width := 900, depth := 350, price := 65 },
     { ref := "A60", label := "Alto 60", type := ModuleType.wall, width := 600, depth := 350, price := 45 },
     { ref := "A45", label := "Alto 45", type := ModuleType.wall, width := 450, depth := 350, price := 38 },
     { ref := "A30", label := "Alto 30", type := ModuleType.wall, width := 300, depth := 350, price := 30 },
     { ref := "A15", label := "Alto 15", type := ModuleType.wall, width := 150, depth := 350, price := 22 }] := by
  norm_num [getWallModulesByWidth, sortByWidthDesc, CATALOG, List.filter,
    List.insertionSort, List.orderedInsert]

theorem baseModules_width_ge : ∀ m ∈ getBaseModulesByWidth, (150 : ℚ) ≤ m.width := by
  intro m hm
  rw [getBaseModulesByWidth_eq] at hm
  simp only [List.mem_cons, List.not_mem_nil, or_false] at hm
  rcases hm with h | h | h | h | h | h <;> subst h <;> norm_num

theorem sinkItem_eq : sinkItem =
    { ref := "SINK60", label := "Fregadero", type := ModuleType.base, width := 600,
      depth := 600, price := 65, anchor := some "water_point" } := by
  decide

theorem ovenItem_eq : ovenItem =
    { ref := "OVEN60", label := "Horno", type := ModuleType.base, width := 600,
      depth := 600, price := 60, anchor := some "smoke_outlet" } := by
  decide

theorem cornerItem_eq : cornerItem =
    { ref := "CORNER90", label := "Rincón L", type := ModuleType.base, width := 930,
      depth := 930, price := 110, corner := true } := by
  decide

theorem cornerFind_isSome :
    (CATALOG.find? (fun c => decide (c.ref = "CORNER90"))).isSome = true := by
  decide

/-! ### Greedy fill lemmas -/

theorem fillSegment_eq (wid : String) (e c : ℚ) :
    fillSegment wid e c =
      if c < e then
        match getBaseModulesByWidth.find? (fun m => decide (m.width ≤ e - c)) with
        | none => []
        | some m => mkGreedy wid c m :: fillSegment wid e (c + m.width)
      else [] := by
  rw [fillSegment]
  by_cases h : c < e
  · rw [dif_pos h, if_pos h]
    cases List.find? (fun m => decide (m.width ≤ e - c)) getBaseModulesByWidth <;> rfl
  · rw [dif_neg h, if_neg h]

theorem fillSegment_facts (wid : String) (e : ℚ) (c : ℚ) :
    ∀ p ∈ fillSegment wid e c,
      c ≤ p.position ∧ p.position + p.width ≤ e ∧ 150 ≤ p.width ∧
        p.wallId = wid ∧ p.type = ModuleType.base ∧ p.anchor = none ∧ p.corner = false := by
  induction c using fillSegment.induct wid e with
  | case1 c hlt hfind =>
    intro p hp
    rw [fillSegment_eq, if_pos hlt, hfind] at hp
    exact absurd hp (List.not_mem_nil p)
  | case2 c hlt m hfind ih =>
    intro p hp
    rw [fillSegment_eq, if_pos hlt, hfind] at hp
    have hwfit : m.width ≤ e - c := by
      have h1 := List.find?_some hfind
      simpa using h1
    have hw150 : (150 : ℚ) ≤ m.width :=
      baseModules_width_ge m (List.mem_of_find?_eq_some hfind)
    rcases List.mem_cons.mp hp with h1 | h1
    · subst h1
      refine ⟨le_refl _, ?_, hw150, rfl, rfl, rfl, rfl⟩
      simp only [mkGreedy]
      linarith
    · obtain ⟨ha, hb, hc', hd, he', hf', hg⟩ := ih p h1
      exact ⟨by linarith, hb, hc', hd, he', hf', hg⟩
  | case3 c hlt =>
    intro p hp
    rw [fillSegment_eq, if_neg hlt] at hp
    exact absurd hp (List.not_mem_nil p)

theorem fillSegment_pairwise (wid : String) (e : ℚ) (c : ℚ) :
    (fillSegment wid e c).Pairwise (fun p q => p.position + p.width ≤ q.position) := by
  induction c using fillSegment.induct wid e with
  | case1 c hlt hfind =>
    rw [fillSegment_eq, if_pos hlt, hfind]
    exact List.Pairwise.nil
  | case2 c hlt m hfind ih =>
    rw [fillSegment_eq, if_pos hlt, hfind]
    rw [List.pairwise_cons]
    refine ⟨?_, ih⟩
    intro q hq
    have := (fillSegment_facts wid e (c + m.width) q hq).1
    simpa [mkGreedy] using this
  | case3 c hlt =>
    rw [fillSegment_eq, if_neg hlt]
    exact List.Pairwise.nil

theorem fillSegment_cons (wid : String) (e c : ℚ) (m : CatalogItem) (hlt : c < e)
    (hfind : getBaseModulesByWidth.find? (fun x => decide (x.width ≤ e - c)) = some m) :
    fillSegment wid e c = mkGreedy wid c m :: fillSegment wid e (c + m.width) := by
  rw [fillSegment_eq, if_pos hlt, hfind]

theorem fillSegment_stop (wid : String) (e c : ℚ)
    (hfind : getBaseModulesByWidth.find? (fun x => decide (x.width ≤ e - c)) = none) :
    fillSegment wid e c = [] := by
  rw [fillSegment_eq]
  by_cases hlt : c < e
  · rw [if_pos hlt, hfind]
  · rw [if_neg hlt]

theorem fillSegment_done (wid : String) (e c : ℚ) (h : ¬ c < e) :
    fillSegment wid e c = [] := by
  rw [fillSegment_eq, if_neg h]

/-! ### Claim C4 -/

/-- **C4**: for every list of zones, `mergeZones` output is sorted by start
ascending and pairwise non-adjacent (each zone's start strictly exceeds the
previous zone's stop), hence pairwise non-overlapping; and `mergeZones` is
idempotent. -/
theorem c4_mergeZones_sorted_disjoint_idem (zones : List Zone) :
    (mergeZones zones).Pairwise (fun a b => a.start ≤ b.start ∧ a.stop < b.start) ∧
      (mergeZones zones).Pairwise Zone.disj ∧
      mergeZones (mergeZones zones) = mergeZones zones :=
  ⟨mergeZones_pairwise zones,
   (mergeZones_pairwise zones).imp (fun h => disj_of_le _ _ (le_of_lt h.2)),
   mergeZones_idem zones⟩

/-! ### Claim C5 -/

/-- **C5** (amended: the occupied zones must be proper and confined to
`[0, wallLength]`): the free segments of `findFreeSegments`, together with
the merged occupied zones, exactly partition `[0, wallLength)` — they cover
it and are pairwise disjoint. -/
theorem c5_freeSegments_partition (wallLength : ℚ) (occupiedZones : List Zone)
    (hz : ∀ z ∈ occupiedZones, 0 ≤ z.start ∧ z.start ≤ z.stop ∧ z.stop ≤ wallLength) :
    exactPartition wallLength
      (findFreeSegments wallLength occupiedZones ++ mergeZones occupiedZones) :=
  findFreeSegments_partition wallLength occupiedZones hz

/-- **C5 witness**: the door scenario — zone `[1100, 1900)` on a 3000 mm
wall — satisfies the hypothesis, and the partition property holds there. -/
theorem c5_freeSegments_partition_witness :
    (∀ z ∈ [Zone.mk 1100 1900], 0 ≤ z.start ∧ z.start ≤ z.stop ∧ z.stop ≤ (3000 : ℚ)) ∧
      exactPartition 3000
        (findFreeSegments 3000 [Zone.mk 1100 1900] ++ mergeZones [Zone.mk 1100 1900]) := by
  have hz : ∀ z ∈ [Zone.mk 1100 1900], 0 ≤ z.start ∧ z.start ≤ z.stop ∧ z.stop ≤ (3000 : ℚ) := by
    intro z hzm
    rw [List.mem_singleton] at hzm
    subst hzm; norm_num
  exact ⟨hz, c5_freeSegments_partition 3000 [Zone.mk 1100 1900] hz⟩

/-- **C5 counterexample**: the claim as stated fails for unrestricted zone
lists.  A door of width 800 centred at position 0 yields the blocked zone
`[-400, 400)`; the free segments plus merged zones then cover the point
`-200`, which is outside `[0, 1000)`, so they do not exactly partition the
wall interval. -/
theorem c5_counterexample :
    ¬ exactPartition 1000
      (findFreeSegments 1000 [Zone.mk (-400) 400] ++ mergeZones [Zone.mk (-400) 400]) := by
  intro h
  have hmz : mergeZones [Zone.mk (-400) 400] = [Zone.mk (-400) 400] := by
    norm_num [mergeZones, sortZones, List.insertionSort, List.orderedInsert, mergeRun]
  have hmem : Zone.mk (-400) 400 ∈
      findFreeSegments 1000 [Zone.mk (-400) 400] ++ mergeZones [Zone.mk (-400) 400] := by
    rw [hmz]
    exact List.mem_append_right _ (List.mem_singleton.mpr rfl)
  have h2 := (h.1 (-200)).mpr ⟨Zone.mk (-400) 400, hmem, by norm_num [Zone.memQ]⟩
  norm_num at h2

/-! ### Claim C9 -/

/-- **C9**: for every placement list, the grand total is the modules,
hardware and lineal subtotals summed and rounded to 2 decimals as the final
step; the lineal subtotal is the sum of the countertop and plinth costs,
each independently rounded to 2 decimals before summing; and an empty
placement list yields the all-zero budget. -/
theorem c9_budget_totals (placedModules : List PlacedModule) :
    (calculateBudget placedModules).totalPrice =
      round2 ((calculateBudget placedModules).modulesTotal +
        (calculateBudget placedModules).hardwareTotal +
        (calculateBudget placedModules).linealTotal) ∧
      (calculateBudget placedModules).linealTotal =
        round2 ((calculateBudget placedModules).baseLinealM * LINEALS.COUNTERTOP.pricePerMeter) +
          round2 ((calculateBudget placedModules).baseLinealM * LINEALS.PLINTH.pricePerMeter) ∧
      calculateBudget [] = emptyBudget := by
  refine ⟨?_, ?_, by rw [calculateBudget, if_pos rfl]⟩ <;>
    by_cases h : placedModules = []
  · subst h
    rw [calculateBudget, if_pos rfl]
    show (0 : ℚ) = round2 (0 + 0 + 0)
    norm_num [round2, jsRound]
  · rw [calculateBudget, if_neg h]
  · subst h
    rw [calculateBudget, if_pos rfl]
    show (0 : ℚ) = round2 (0 * _) + round2 (0 * _)
    norm_num [round2, jsRound]
  · rw [calculateBudget, if_neg h]

/-! ### Claim C10 -/

/-- **C10**: the greedy fill loop terminates.  Every fill candidate is at
least 150 mm wide, and each placement advances the cursor by the module's
width, so the number of modules the loop emits on a segment is bounded:
150 times the output length never exceeds the segment span.  (`fillSegment`
is a total function of its arguments, as is `generateLayout`.) -/
theorem c10_greedy_fill_terminates :
    (∀ m ∈ getBaseModulesByWidth, (150 : ℚ) ≤ m.width) ∧
      ∀ (wid : String) (e c : ℚ),
        150 * ((fillSegment wid e c).length : ℚ) ≤ max 0 (e - c) := by
  refine ⟨baseModules_width_ge, ?_⟩
  intro wid e c
  induction c using fillSegment.induct wid e with
  | case1 c hlt hfind =>
    rw [fillSegment_eq, if_pos hlt, hfind]
    simpa using le_max_left 0 (e - c)
  | case2 c hlt m hfind ih =>
    rw [fillSegment_eq, if_pos hlt, hfind]
    have hwfit : m.width ≤ e - c := by
      have h1 := List.find?_some hfind
      simpa using h1
    have hw150 : (150 : ℚ) ≤ m.width :=
      baseModules_width_ge m (List.mem_of_find?_eq_some hfind)
    have hstep : max 0 (e - (c + m.width)) + m.width ≤ e - c := by
      rcases le_or_lt 0 (e - (c + m.width)) with h3 | h3
      · rw [max_eq_right h3]; linarith
      · rw [max_eq_left (le_of_lt h3)]; linarith
    have hmax : e - c ≤ max 0 (e - c) := le_max_right 0 (e - c)
    simp only [List.length_cons]
    push_cast
    linarith
  | case3 c hlt =>
    rw [fillSegment_eq, if_neg hlt]
    simpa using le_max_left 0 (e - c)

/-- **C10 witness**: instantiated on the 150 mm module and on a concrete
3000 mm segment. -/
theorem c10_greedy_fill_terminates_witness :
    ((150 : ℚ) ≤
      (({ ref := "B15", label := "Bajo 15", type := ModuleType.base, width := 150, depth := 600, price := 25 } : CatalogItem)).width) ∧
      150 * ((fillSegment "wall-A" 3000 0).length : ℚ) ≤ max 0 (3000 - 0) := by
  constructor
  · apply c10_greedy_fill_terminates.1
    rw [getBaseModulesByWidth_eq]
    simp
  · exact c10_greedy_fill_terminates.2 "wall-A" 3000 0

/-! ### Anchor pass lemmas -/

theorem trySink_cases (wall : Wall) (blocked : List Zone) (wp : Obstacle) :
    (isConflict (wp.position - sinkItem.width / 2)
        (wp.position - sinkItem.width / 2 + sinkItem.width) blocked = true →
      trySink wall blocked wp = Sum.inr (sinkBlockedMsg wall.id wp.position)) ∧
    (isConflict (wp.position - sinkItem.width / 2)
        (wp.position - sinkItem.width / 2 + sinkItem.width) blocked = false →
      (wp.position - sinkItem.width / 2 < 0 ∨
        wp.position - sinkItem.width / 2 + sinkItem.width > wall.length) →
      trySink wall blocked wp = Sum.inr (sinkBoundsMsg wall.id wp.position)) ∧
    (isConflict (wp.position - sinkItem.width / 2)
        (wp.position - sinkItem.width / 2 + sinkItem.width) blocked = false →
      ¬(wp.position - sinkItem.width / 2 < 0 ∨
        wp.position - sinkItem.width / 2 + sinkItem.width > wall.length) →
      trySink wall blocked wp = Sum.inl
        { ref := "SINK60", type := ModuleType.base, wallId := wall.id,
          position := wp.position - sinkItem.width / 2, width := sinkItem.width,
          label := sinkItem.label, price := sinkItem.price, anchor := some "water_point" }) := by
  refine ⟨?_, ?_, ?_⟩
  · intro h1
    simp only [trySink]
    rw [if_pos h1]
  · intro h1 h2
    simp only [trySink]
    rw [if_neg (by simp [h1]), if_pos h2]
  · intro h1 h2
    simp only [trySink]
    rw [if_neg (by simp [h1]), if_neg h2]

theorem tryOven_cases (wall : Wall) (blocked : List Zone) (sp : Obstacle) :
    (isConflict (sp.position - ovenItem.width / 2)
        (sp.position - ovenItem.width / 2 + ovenItem.width) blocked = true →
      tryOven wall blocked sp = Sum.inr (ovenBlockedMsg wall.id sp.position)) ∧
    (isConflict (sp.position - ovenItem.width / 2)
        (sp.position - ovenItem.width / 2 + ovenItem.width) blocked = false →
      (sp.position - ovenItem.width / 2 < 0 ∨
        sp.position - ovenItem.width / 2 + ovenItem.width > wall.length) →
      tryOven wall blocked sp = Sum.inr (ovenBoundsMsg wall.id sp.position)) ∧
    (isConflict (sp.position - ovenItem.width / 2)
        (sp.position - ovenItem.width / 2 + ovenItem.width) blocked = false →
      ¬(sp.position - ovenItem.width / 2 < 0 ∨
        sp.position - ovenItem.width / 2 + ovenItem.width > wall.length) →
      tryOven wall blocked sp = Sum.inl
        { ref := "OVEN60", type := ModuleType.base, wallId := wall.id,
          position := sp.position - ovenItem.width / 2, width := ovenItem.width,
          label := ovenItem.label, price := ovenItem.price, anchor := some "smoke_outlet" }) := by
  refine ⟨?_, ?_, ?_⟩
  · intro h1
    simp only [tryOven]
    rw [if_pos h1]
  · intro h1 h2
    simp only [tryOven]
    rw [if_neg (by simp [h1]), if_pos h2]
  · intro h1 h2
    simp only [tryOven]
    rw [if_neg (by simp [h1]), if_neg h2]

theorem trySink_inl_inv (wall : Wall) (blocked : List Zone) (wp : Obstacle) (p : PlacedModule)
    (h : trySink wall blocked wp = Sum.inl p) :
    p = { ref := "SINK60", type := ModuleType.base, wallId := wall.id,
          position := wp.position - sinkItem.width / 2, width := sinkItem.width,
          label := sinkItem.label, price := sinkItem.price, anchor := some "water_point" } ∧
      0 ≤ p.position ∧ p.position + p.width ≤ wall.length := by
  by_cases h1 : isConflict (wp.position - sinkItem.width / 2)
      (wp.position - sinkItem.width / 2 + sinkItem.width) blocked = true
  · rw [(trySink_cases wall blocked wp).1 h1] at h
    exact absurd h (by simp)
  · have h1f : isConflict (wp.position - sinkItem.width / 2)
        (wp.position - sinkItem.width / 2 + sinkItem.width) blocked = false := by
      simpa using h1
    by_cases h2 : (wp.position - sinkItem.width / 2 < 0 ∨
        wp.position - sinkItem.width / 2 + sinkItem.width > wall.length)
    · rw [(trySink_cases wall blocked wp).2.1 h1f h2] at h
      exact absurd h (by simp)
    · rw [(trySink_cases wall blocked wp).2.2 h1f h2] at h
      have hrec := Sum.inl.inj h
      push_neg at h2
      refine ⟨hrec.symm, ?_, ?_⟩
      · rw [← hrec]; exact h2.1
      · rw [← hrec]; exact h2.2

theorem tryOven_inl_inv (wall : Wall) (blocked : List Zone) (sp : Obstacle) (p : PlacedModule)
    (h : tryOven wall blocked sp = Sum.inl p) :
    p = { ref := "OVEN60", type := ModuleType.base, wallId := wall.id,
          position := sp.position - ovenItem.width / 2, width := ovenItem.width,
          label := ovenItem.label, price := ovenItem.price, anchor := some "smoke_outlet" } ∧
      0 ≤ p.position ∧ p.position + p.width ≤ wall.length := by
  by_cases h1 : isConflict (sp.position - ovenItem.width / 2)
      (sp.position - ovenItem.width / 2 + ovenItem.width) blocked = true
  · rw [(tryOven_cases wall blocked sp).1 h1] at h
    exact absurd h (by simp)
  · have h1f : isConflict (sp.position - ovenItem.width / 2)
        (sp.position - ovenItem.width / 2 + ovenItem.width) blocked = false := by
      simpa using h1
    by_cases h2 : (sp.position - ovenItem.width / 2 < 0 ∨
        sp.position - ovenItem.width / 2 + ovenItem.width > wall.length)
    · rw [(tryOven_cases wall blocked sp).2.1 h1f h2] at h
      exact absurd h (by simp)
    · rw [(tryOven_cases wall blocked sp).2.2 h1f h2] at h
      have hrec := Sum.inl.inj h
      push_neg at h2
      refine ⟨hrec.symm, ?_, ?_⟩
      · rw [← hrec]; exact h2.1
      · rw [← hrec]; exact h2.2

theorem anchorsPlaced_mem (state : RoomState) :
    ∀ p ∈ anchorsPlaced state, ∃ wall ∈ state.walls,
      p.wallId = wall.id ∧ p.type = ModuleType.base ∧ p.corner = false ∧
      (p.anchor = some "water_point" ∨ p.anchor = some "smoke_outlet") ∧
      p.width = 600 ∧ 0 ≤ p.position ∧ p.position + p.width ≤ wall.length := by
  intro p hp
  unfold anchorsPlaced at hp
  rw [List.mem_flatMap] at hp
  obtain ⟨w, hw, hp⟩ := hp
  rw [List.mem_filterMap] at hp
  obtain ⟨r, hr, hmatch⟩ := hp
  have hr' : r = Sum.inl p := by
    cases r with
    | inl m =>
      have : m = p := by simpa using hmatch
      rw [this]
    | inr e => simp at hmatch
  subst hr'
  unfold wallAnchorResults at hr
  rw [List.mem_append] at hr
  rcases hr with hr | hr
  · rw [List.mem_map] at hr
    obtain ⟨wp, _, htr⟩ := hr
    obtain ⟨hrec, hb1, hb2⟩ := trySink_inl_inv w _ wp p htr
    subst hrec
    refine ⟨w, hw, rfl, rfl, rfl, Or.inl rfl, ?_, hb1, hb2⟩
    rw [sinkItem_eq]
  · rw [List.mem_map] at hr
    obtain ⟨sp, _, htr⟩ := hr
    obtain ⟨hrec, hb1, hb2⟩ := tryOven_inl_inv w _ sp p htr
    subst hrec
    refine ⟨w, hw, rfl, rfl, rfl, Or.inr rfl, ?_, hb1, hb2⟩
    rw [ovenItem_eq]

/-! ### Corner pass lemmas -/

theorem cornerPlacement_eq (shape : String) :
    cornerPlacement shape =
      if shape = "L-SHAPED" ∨ shape = "U-SHAPED" then [cornerModule] else [] := by
  unfold cornerPlacement
  split_ifs with h h2
  · rfl
  · exact absurd cornerFind_isSome h2
  · rfl

theorem cornerModule_fields :
    cornerModule.position = 0 ∧ cornerModule.width = 930 ∧ cornerModule.corner = true ∧
      cornerModule.wallId = "corner-AB" ∧ cornerModule.type = ModuleType.base := by
  refine ⟨rfl, ?_, rfl, rfl, rfl⟩
  show cornerItem.width = 930
  rw [cornerItem_eq]

theorem cornerOccupied_eq (shape : String) (wallId : String) :
    cornerOccupied shape wallId =
      if shape = "L-SHAPED" ∨ shape = "U-SHAPED" then
        (if wallId = "wall-A" then [Zone.mk 0 cornerItem.width] else []) ++
          (if wallId = "wall-B" then [Zone.mk 0 cornerItem.width] else [])
      else [] := by
  unfold cornerOccupied
  split_ifs <;> first
    | rfl
    | exact absurd cornerFind_isSome (by assumption)

theorem cornerOccupied_mem (shape : String) (wid : String) :
    ∀ z ∈ cornerOccupied shape wid, z = Zone.mk 0 cornerItem.width := by
  intro z hz
  rw [cornerOccupied_eq] at hz
  split_ifs at hz
  all_goals
    simp only [List.mem_append, List.mem_singleton, List.not_mem_nil, or_false,
      false_or, or_self] at hz
  all_goals first
    | exact hz
    | exact hz.elim

/-! ### Greedy pass structure lemmas -/

theorem greedyPass_prefix (shape : String) (walls : List Wall) (init : List PlacedModule) :
    ∃ rest, greedyPass shape walls init = init ++ rest := by
  induction walls generalizing init with
  | nil => exact ⟨[], by simp [greedyPass]⟩
  | cons w ws ih =>
    obtain ⟨r1, h1⟩ := ih (init ++ greedyWall shape init w)
    refine ⟨greedyWall shape init w ++ r1, ?_⟩
    simp only [greedyPass, List.foldl_cons]
    rw [show List.foldl (fun acc wall => acc ++ greedyWall shape acc wall)
        (init ++ greedyWall shape init w) ws = greedyPass shape ws (init ++ greedyWall shape init w)
      from rfl, h1, List.append_assoc]

theorem greedyWall_mem (shape : String) (acc : List PlacedModule) (wall : Wall) :
    ∀ p ∈ greedyWall shape acc wall,
      ∃ seg ∈ findFreeSegments wall.length (occupiedZonesFor shape acc wall),
        p ∈ fillSegment wall.id seg.stop seg.start := by
  intro p hp
  unfold greedyWall at hp
  rw [List.mem_flatMap] at hp
  exact hp

theorem greedyPass_mem (shape : String) (walls : List Wall) (init : List PlacedModule) :
    ∀ p ∈ greedyPass shape walls init, p ∈ init ∨
      ∃ wall ∈ walls, ∃ acc,
        ∃ seg ∈ findFreeSegments wall.length (occupiedZonesFor shape acc wall),
          p ∈ fillSegment wall.id seg.stop seg.start := by
  induction walls generalizing init with
  | nil => intro p hp; exact Or.inl (by simpa [greedyPass] using hp)
  | cons w ws ih =>
    intro p hp
    simp only [greedyPass, List.foldl_cons] at hp
    rcases ih (init ++ greedyWall shape init w) p hp with h1 | ⟨wall, hwall, acc, seg, hseg, hfill⟩
    · rcases List.mem_append.mp h1 with h2 | h2
      · exact Or.inl h2
      · obtain ⟨seg, hseg, hfill⟩ := greedyWall_mem shape init w p h2
        exact Or.inr ⟨w, List.mem_cons_self .., init, seg, hseg, hfill⟩
    · exact Or.inr ⟨wall, List.mem_cons_of_mem _ hwall, acc, seg, hseg, hfill⟩

/-! ### Mirror pass lemmas -/

theorem mirrorOne_mem (wid : String) (windows : List Zone) (baseMod : PlacedModule) :
    ∀ q ∈ mirrorOne wid windows baseMod,
      q.type = ModuleType.wall ∧ q.anchor = none ∧ q.corner = false ∧ q.wallId = wid ∧
        q.position = baseMod.position ∧ q.width ≤ baseMod.width := by
  intro q hq
  simp only [mirrorOne] at hq
  split_ifs at hq with h1
  · simp at hq
  · cases hfe : getWallModulesByWidth.find? (fun wm => decide (wm.width = baseMod.width)) with
    | some mw =>
      rw [hfe, List.mem_singleton] at hq
      subst hq
      have hweq := List.find?_some hfe
      refine ⟨rfl, rfl, rfl, rfl, rfl, le_of_eq ?_⟩
      simpa using hweq
    | none =>
      rw [hfe] at hq
      cases hff : getWallModulesByWidth.find? (fun wm => decide (wm.width ≤ baseMod.width)) with
      | some mw =>
        rw [hff, List.mem_singleton] at hq
        subst hq
        have hwle := List.find?_some hff
        refine ⟨rfl, rfl, rfl, rfl, rfl, ?_⟩
        simpa using hwle
      | none =>
        rw [hff] at hq
        simp at hq

theorem mirrorWall_mem (placed : List PlacedModule) (wall : Wall) :
    ∀ q ∈ mirrorWall placed wall, ∃ p ∈ placed,
      p.wallId = wall.id ∧ p.type = ModuleType.base ∧
      q.type = ModuleType.wall ∧ q.anchor = none ∧ q.corner = false ∧ q.wallId = wall.id ∧
      q.position = p.position ∧ q.width ≤ p.width := by
  intro q hq
  unfold mirrorWall at hq
  rw [List.mem_flatMap] at hq
  obtain ⟨p, hpf, hq⟩ := hq
  rw [List.mem_filter] at hpf
  have hpd : p.wallId = wall.id ∧ p.type = ModuleType.base := by
    have h2 := hpf.2
    simpa using h2
  obtain ⟨f1, f2, f3, f4, f5, f6⟩ := mirrorOne_mem wall.id _ p q hq
  exact ⟨p, hpf.1, hpd.1, hpd.2, f1, f2, f3, f4, f5, f6⟩

/-! ### Wall identifier uniqueness -/

theorem walls_id_unique (walls : List Wall) (h : walls.Pairwise (fun a b => a.id ≠ b.id)) :
    ∀ a ∈ walls, ∀ b ∈ walls, a.id = b.id → a = b := by
  induction walls with
  | nil => intro a ha; exact absurd ha (List.not_mem_nil a)
  | cons x tl ih =>
    rcases List.pairwise_cons.mp h with ⟨hx, htl⟩
    intro a ha b hb hab
    rcases List.mem_cons.mp ha with h1 | h1 <;> rcases List.mem_cons.mp hb with h2 | h2
    · rw [h1, h2]
    · exact absurd (h1 ▸ hab) (hx b h2)
    · exact absurd (h2 ▸ hab).symm (hx a h1)
    · exact ih htl a h1 b h2 hab

theorem greedyPass_prefix_mem (shape : String) (walls : List Wall) (init : List PlacedModule) :
    ∃ rest, greedyPass shape walls init = init ++ rest ∧
      ∀ p ∈ rest, ∃ wall ∈ walls, ∃ acc,
        ∃ seg ∈ findFreeSegments wall.length (occupiedZonesFor shape acc wall),
          p ∈ fillSegment wall.id seg.stop seg.start := by
  induction walls generalizing init with
  | nil =>
    refine ⟨[], by simp [greedyPass], ?_⟩
    intro p hp
    exact absurd hp (List.not_mem_nil p)
  | cons w ws ih =>
    obtain ⟨r1, h1, hmem⟩ := ih (init ++ greedyWall shape init w)
    refine ⟨greedyWall shape init w ++ r1, ?_, ?_⟩
    · simp only [greedyPass, List.foldl_cons]
      rw [show List.foldl (fun acc wall => acc ++ greedyWall shape acc wall)
          (init ++ greedyWall shape init w) ws =
          greedyPass shape ws (init ++ greedyWall shape init w) from rfl, h1,
        List.append_assoc]
    · intro p hp
      rcases List.mem_append.mp hp with h2 | h2
      · obtain ⟨seg, hseg, hfill⟩ := greedyWall_mem shape init w p h2
        exact ⟨w, List.mem_cons_self .., init, seg, hseg, hfill⟩
      · obtain ⟨wall, hwall, acc, seg, hseg, hfill⟩ := hmem p h2
        exact ⟨wall, List.mem_cons_of_mem _ hwall, acc, seg, hseg, hfill⟩

/-! ### First-fit selection lemmas -/

theorem find?_fit_max (l : List CatalogItem) (hsor : l.Pairwise (fun a b => b.width ≤ a.width))
    (r : ℚ) (m : CatalogItem)
    (hfind : l.find? (fun x => decide (x.width ≤ r)) = some m) :
    m ∈ l ∧ m.width ≤ r ∧ ∀ m' ∈ l, m'.width ≤ r → m'.width ≤ m.width := by
  induction l with
  | nil => simp at hfind
  | cons a tl ih =>
    rcases List.pairwise_cons.mp hsor with ⟨ha, htl⟩
    by_cases h : a.width ≤ r
    · rw [List.find?_cons_of_pos _ (by simpa using h)] at hfind
      have hma : a = m := by simpa using hfind
      subst hma
      refine ⟨List.mem_cons_self .., h, ?_⟩
      intro m' hm' _
      rcases List.mem_cons.mp hm' with h1 | h1
      · exact le_of_eq (by rw [h1])
      · exact ha m' h1
    · rw [List.find?_cons_of_neg _ (by simpa using h)] at hfind
      obtain ⟨h1, h2, h3⟩ := ih htl hfind
      refine ⟨List.mem_cons_of_mem _ h1, h2, ?_⟩
      intro m' hm' hle
      rcases List.mem_cons.mp hm' with h4 | h4
      · exact absurd (h4 ▸ hle) h
      · exact h3 m' h4 hle

theorem find?_fit_none (l : List CatalogItem) (r : ℚ)
    (hfind : l.find? (fun x => decide (x.width ≤ r)) = none) :
    ∀ m ∈ l, r < m.width := by
  intro m hm
  have h1 := List.find?_eq_none.mp hfind m hm
  simpa [not_le] using h1

theorem getBaseModulesByWidth_sorted :
    getBaseModulesByWidth.Pairwise (fun a b => b.width ≤ a.width) := by
  rw [getBaseModulesByWidth_eq]
  norm_num [List.pairwise_cons]

/-! ### Claim C7 -/

/-- **C7**: greedy fill on a free segment is deterministic first-fit
decreasing, left to right.  The candidate pool is the catalog's six plain
base modules in width-descending (declaration-order-stable) order; the
module chosen at each step is the widest candidate that fits the remaining
space `segEnd − cursor` (ties would resolve to the earlier, catalog-order
entry, since `find?` returns the first hit of the stable ordering); it is
placed at the cursor, which then advances by its width; when no candidate
fits the segment is abandoned; and the solver's diagnostics consist of the
anchor-pass diagnostics only, so no diagnostic is ever recorded for a
leftover gap. -/
theorem c7_greedy_first_fit :
    (getBaseModulesByWidth =
      [{ ref := "B120", label := "Bajo 120", type := ModuleType.base, width := 1200, depth := 600, price := 95 },
       { ref := "B90", label := "Bajo 90", type := ModuleType.base, width := 900, depth := 600, price := 72 },
       { ref := "B60", label := "Bajo 60", type := ModuleType.base, width := 600, depth := 600, price := 50 },
       { ref := "B45", label := "Bajo 45", type := ModuleType.base, width := 450, depth := 600, price := 42 },
       { ref := "B30", label := "Bajo 30", type := ModuleType.base, width := 300, depth := 600, price := 35 },
       { ref := "B15", label := "Bajo 15", type := ModuleType.base, width := 150, depth := 600, price := 25 }]) ∧
    (∀ (r : ℚ) (m : CatalogItem),
      getBaseModulesByWidth.find? (fun x => decide (x.width ≤ r)) = some m →
        m ∈ getBaseModulesByWidth ∧ m.width ≤ r ∧
          ∀ m' ∈ getBaseModulesByWidth, m'.width ≤ r → m'.width ≤ m.width) ∧
    (∀ r : ℚ, getBaseModulesByWidth.find? (fun x => decide (x.width ≤ r)) = none →
      ∀ m' ∈ getBaseModulesByWidth, r < m'.width) ∧
    (∀ (wid : String) (e c : ℚ) (m : CatalogItem), c < e →
      getBaseModulesByWidth.find? (fun x => decide (x.width ≤ e - c)) = some m →
        fillSegment wid e c = mkGreedy wid c m :: fillSegment wid e (c + m.width)) ∧
    (∀ (wid : String) (e c : ℚ),
      getBaseModulesByWidth.find? (fun x => decide (x.width ≤ e - c)) = none →
        fillSegment wid e c = []) ∧
    (∀ state : RoomState, (generateLayout state).2 = anchorErrors state) := by
  refine ⟨getBaseModulesByWidth_eq, ?_, ?_, ?_, ?_, fun _ => rfl⟩
  · intro r m hfind
    exact find?_fit_max getBaseModulesByWidth getBaseModulesByWidth_sorted r m hfind
  · intro r hfind
    exact find?_fit_none getBaseModulesByWidth r hfind
  · intro wid e c m hlt hfind
    exact fillSegment_cons wid e c m hlt hfind
  · intro wid e c hfind
    exact fillSegment_stop wid e c hfind

/-- **C7 witness**: with 750 mm remaining the fill picks the 600 mm module
(the widest that fits), then the 150 mm module, then stops at the consumed
segment. -/
theorem c7_greedy_first_fit_witness :
    (getBaseModulesByWidth.find? (fun x => decide (x.width ≤ (750 : ℚ))) =
      some { ref := "B60", label := "Bajo 60", type := ModuleType.base, width := 600, depth := 600, price := 50 }) ∧
    (∀ m' ∈ getBaseModulesByWidth, m'.width ≤ (750 : ℚ) → m'.width ≤
      ({ ref := "B60", label := "Bajo 60", type := ModuleType.base, width := 600, depth := 600, price := 50 } : CatalogItem).width) ∧
    fillSegment "wall-A" 750 0 =
      [mkGreedy "wall-A" 0 { ref := "B60", label := "Bajo 60", type := ModuleType.base, width := 600, depth := 600, price := 50 },
       mkGreedy "wall-A" (0 + 600) { ref := "B15", label := "Bajo 15", type := ModuleType.base, width := 150, depth := 600, price := 25 }] := by
  have hf1 : getBaseModulesByWidth.find? (fun x => decide (x.width ≤ (750 : ℚ))) =
      some { ref := "B60", label := "Bajo 60", type := ModuleType.base, width := 600, depth := 600, price := 50 } := by
    rw [getBaseModulesByWidth_eq]
    norm_num [List.find?]
  refine ⟨hf1, ?_, ?_⟩
  · exact (c7_greedy_first_fit.2.1 750 _ hf1).2.2
  · have hs1 := c7_greedy_first_fit.2.2.2.1 "wall-A" 750 0 _ (by norm_num)
      (by rw [show (750 : ℚ) - 0 = 750 by norm_num]; exact hf1)
    rw [hs1]
    have hf2 : getBaseModulesByWidth.find? (fun x => decide (x.width ≤ (750 : ℚ) - (0 + 600))) =
        some { ref := "B15", label := "Bajo 15", type := ModuleType.base, width := 150, depth := 600, price := 25 } := by
      rw [getBaseModulesByWidth_eq]
      norm_num [List.find?]
    have hs2 := c7_greedy_first_fit.2.2.2.1 "wall-A" 750 (0 + 600) _ (by norm_num) hf2
    rw [hs2]
    have hs3 : fillSegment "wall-A" 750 (0 + 600 + 150) = [] := by
      rw [fillSegment_eq, if_neg (by norm_num)]
    rw [hs3]

/-! ### Claim C6 -/

theorem sink_result_mem (wall : Wall) (wp : Obstacle) (hwp : wp ∈ wall.obstacles)
    (ht : wp.type = "water_point") :
    trySink wall (buildBlockedZones wall.obstacles) wp ∈ wallAnchorResults wall := by
  unfold wallAnchorResults
  apply List.mem_append_left
  exact List.mem_map_of_mem _ (List.mem_filter.mpr ⟨hwp, by simp [ht]⟩)

theorem oven_result_mem (wall : Wall) (sp : Obstacle) (hsp : sp ∈ wall.obstacles)
    (ht : sp.type = "smoke_outlet") :
    tryOven wall (buildBlockedZones wall.obstacles) sp ∈ wallAnchorResults wall := by
  unfold wallAnchorResults
  apply List.mem_append_right
  exact List.mem_map_of_mem _ (List.mem_filter.mpr ⟨hsp, by simp [ht]⟩)

theorem err_mem_of_result (state : RoomState) (wall : Wall) (hwall : wall ∈ state.walls)
    (e : String) (h : Sum.inr e ∈ wallAnchorResults wall) : e ∈ anchorErrors state := by
  unfold anchorErrors
  rw [List.mem_flatMap]
  exact ⟨wall, hwall, List.mem_filterMap.mpr ⟨Sum.inr e, h, rfl⟩⟩

theorem placed_mem_of_result (state : RoomState) (wall : Wall) (hwall : wall ∈ state.walls)
    (p : PlacedModule) (h : Sum.inl p ∈ wallAnchorResults wall) :
    p ∈ (generateLayout state).1 := by
  have h1 : p ∈ anchorsPlaced state := by
    unfold anchorsPlaced
    rw [List.mem_flatMap]
    exact ⟨wall, hwall, List.mem_filterMap.mpr ⟨Sum.inl p, h, rfl⟩⟩
  have h2 : p ∈ basePlaced state := by
    unfold basePlaced
    obtain ⟨rest, hr⟩ := greedyPass_prefix state.shape state.walls
      (anchorsPlaced state ++ cornerPlacement state.shape)
    rw [hr]
    exact List.mem_append_left _ (List.mem_append_left _ h1)
  show p ∈ basePlaced state ++ _
  exact List.mem_append_left _ h2

/-- **C6**: anchor conflicts are per-anchor partial failures.  For each wall
and each water-point obstacle on it: if the centred sink overlaps a blocked
zone, the corresponding diagnostic (naming the wall and the obstacle
position) is in the returned diagnostics; if it is conflict-free but out of
the wall bounds, the bounds diagnostic is; otherwise the sink module itself
is in the returned placement.  Likewise for smoke outlets and the oven.
The diagnostics are exactly those of the anchor pass — no other step
records any — and the solver always returns the placement/diagnostics
pair; placement of other anchors and other walls is unaffected, since the
guarantee holds for every anchor of every wall simultaneously. -/
theorem c6_anchor_partial_failure (state : RoomState) (wall : Wall)
    (hwall : wall ∈ state.walls) :
    (∀ wp ∈ wall.obstacles, wp.type = "water_point" →
      (isConflict (wp.position - sinkItem.width / 2)
          (wp.position - sinkItem.width / 2 + sinkItem.width)
          (buildBlockedZones wall.obstacles) = true →
        sinkBlockedMsg wall.id wp.position ∈ (generateLayout state).2) ∧
      (isConflict (wp.position - sinkItem.width / 2)
          (wp.position - sinkItem.width / 2 + sinkItem.width)
          (buildBlockedZones wall.obstacles) = false →
        (wp.position - sinkItem.width / 2 < 0 ∨
          wp.position - sinkItem.width / 2 + sinkItem.width > wall.length) →
        sinkBoundsMsg wall.id wp.position ∈ (generateLayout state).2) ∧
      (isConflict (wp.position - sinkItem.width / 2)
          (wp.position - sinkItem.width / 2 + sinkItem.width)
          (buildBlockedZones wall.obstacles) = false →
        ¬(wp.position - sinkItem.width / 2 < 0 ∨
          wp.position - sinkItem.width / 2 + sinkItem.width > wall.length) →
        ({ ref := "SINK60", type := ModuleType.base, wallId := wall.id,
           position := wp.position - sinkItem.width / 2, width := sinkItem.width,
           label := sinkItem.label, price := sinkItem.price,
           anchor := some "water_point" } : PlacedModule) ∈ (generateLayout state).1)) ∧
    (∀ sp ∈ wall.obstacles, sp.type = "smoke_outlet" →
      (isConflict (sp.position - ovenItem.width / 2)
          (sp.position - ovenItem.width / 2 + ovenItem.width)
          (buildBlockedZones wall.obstacles) = true →
        ovenBlockedMsg wall.id sp.position ∈ (generateLayout state).2) ∧
      (isConflict (sp.position - ovenItem.width / 2)
          (sp.position - ovenItem.width / 2 + ovenItem.width)
          (buildBlockedZones wall.obstacles) = false →
        (sp.position - ovenItem.width / 2 < 0 ∨
          sp.position - ovenItem.width / 2 + ovenItem.width > wall.length) →
        ovenBoundsMsg wall.id sp.position ∈ (generateLayout state).2) ∧
      (isConflict (sp.position - ovenItem.width / 2)
          (sp.position - ovenItem.width / 2 + ovenItem.width)
          (buildBlockedZones wall.obstacles) = false →
        ¬(sp.position - ovenItem.width / 2 < 0 ∨
          sp.position - ovenItem.width / 2 + ovenItem.width > wall.length) →
        ({ ref := "OVEN60", type := ModuleType.base, wallId := wall.id,
           position := sp.position - ovenItem.width / 2, width := ovenItem.width,
           label := ovenItem.label, price := ovenItem.price,
           anchor := some "smoke_outlet" } : PlacedModule) ∈ (generateLayout state).1)) ∧
    (generateLayout state).2 = anchorErrors state := by
  refine ⟨?_, ?_, rfl⟩
  · intro wp hwp ht
    refine ⟨?_, ?_, ?_⟩
    · intro hconf
      apply err_mem_of_result state wall hwall
      rw [← (trySink_cases wall (buildBlockedZones wall.obstacles) wp).1 hconf]
      exact sink_result_mem wall wp hwp ht
    · intro hconf hbound
      apply err_mem_of_result state wall hwall
      rw [← (trySink_cases wall (buildBlockedZones wall.obstacles) wp).2.1 hconf hbound]
      exact sink_result_mem wall wp hwp ht
    · intro hconf hbound
      apply placed_mem_of_result state wall hwall
      rw [← (trySink_cases wall (buildBlockedZones wall.obstacles) wp).2.2 hconf hbound]
      exact sink_result_mem wall wp hwp ht
  · intro sp hsp ht
    refine ⟨?_, ?_, ?_⟩
    · intro hconf
      apply err_mem_of_result state wall hwall
      rw [← (tryOven_cases wall (buildBlockedZones wall.obstacles) sp).1 hconf]
      exact oven_result_mem wall sp hsp ht
    · intro hconf hbound
      apply err_mem_of_result state wall hwall
      rw [← (tryOven_cases wall (buildBlockedZones wall.obstacles) sp).2.1 hconf hbound]
      exact oven_result_mem wall sp hsp ht
    · intro hconf hbound
      apply placed_mem_of_result state wall hwall
      rw [← (tryOven_cases wall (buildBlockedZones wall.obstacles) sp).2.2 hconf hbound]
      exact oven_result_mem wall sp hsp ht

/-- **C6 witness**: a water point at 100 mm on a 3000 mm wall — the sink
would start at −200 mm, so the bounds diagnostic is recorded. -/
theorem c6_anchor_partial_failure_witness :
    ((Wall.mk "wall-A" 3000 [Obstacle.mk "water_point" 100 0]) ∈
      (RoomState.mk "LINEAR" [Wall.mk "wall-A" 3000 [Obstacle.mk "water_point" 100 0]]).walls) ∧
    sinkBoundsMsg "wall-A" 100 ∈
      (generateLayout (RoomState.mk "LINEAR"
        [Wall.mk "wall-A" 3000 [Obstacle.mk "water_point" 100 0]])).2 := by
  have hwall : (Wall.mk "wall-A" 3000 [Obstacle.mk "water_point" 100 0]) ∈
      (RoomState.mk "LINEAR" [Wall.mk "wall-A" 3000 [Obstacle.mk "water_point" 100 0]]).walls :=
    List.mem_singleton.mpr rfl
  refine ⟨hwall, ?_⟩
  have h := (c6_anchor_partial_failure _ _ hwall).1 (Obstacle.mk "water_point" 100 0)
    (List.mem_singleton.mpr rfl) rfl
  apply h.2.1
  · rw [sinkItem_eq]
    norm_num [isConflict, buildBlockedZones, sortZones, List.insertionSort, List.filterMap]
  · rw [sinkItem_eq]
    exact Or.inl (by norm_num)

/-! ### Claim C8 -/

/-- **C8**: exactly one corner module is appended precisely when the shape
is L- or U-shaped, regardless of the walls and their obstacles (the state
is universally quantified and no conflict check is involved); it sits at
position 0 with the catalog corner width 930; and for L/U shapes its
`[0, 930)` footprint is among the occupied zones used by the greedy fill on
wall-A and on wall-B, whatever modules have been placed before. -/
theorem c8_corner_placement (state : RoomState) :
    ((generateLayout state).1.filter (fun m => m.corner)) =
      (if state.shape = "L-SHAPED" ∨ state.shape = "U-SHAPED" then [cornerModule] else []) ∧
    cornerModule.position = 0 ∧ cornerModule.width = 930 ∧
    cornerModule.width = cornerItem.width ∧
    ((state.shape = "L-SHAPED" ∨ state.shape = "U-SHAPED") →
      ∀ wall ∈ state.walls, (wall.id = "wall-A" ∨ wall.id = "wall-B") →
        ∀ acc : List PlacedModule,
          Zone.mk 0 cornerItem.width ∈ occupiedZonesFor state.shape acc wall) := by
  obtain ⟨rest, hsplit, hrmem⟩ := greedyPass_prefix_mem state.shape state.walls
    (anchorsPlaced state ++ cornerPlacement state.shape)
  refine ⟨?_, rfl, cornerModule_fields.2.1, rfl, ?_⟩
  · have h1 : (generateLayout state).1 =
        ((anchorsPlaced state ++ cornerPlacement state.shape) ++ rest) ++
          state.walls.flatMap (mirrorWall (basePlaced state)) := by
      show basePlaced state ++ _ = _
      rw [show basePlaced state =
        (anchorsPlaced state ++ cornerPlacement state.shape) ++ rest from hsplit]
    rw [h1]
    rw [List.filter_append, List.filter_append, List.filter_append]
    have hanch : (anchorsPlaced state).filter (fun m => m.corner) = [] := by
      rw [List.filter_eq_nil_iff]
      intro p hp
      obtain ⟨_, _, _, _, hcf, _⟩ := anchorsPlaced_mem state p hp
      simp [hcf]
    have hrest : rest.filter (fun m => m.corner) = [] := by
      rw [List.filter_eq_nil_iff]
      intro p hp
      obtain ⟨wall, _, acc, seg, _, hfill⟩ := hrmem p hp
      have hfl := fillSegment_facts wall.id seg.stop seg.start p hfill
      simp [hfl.2.2.2.2.2.2]
    have hmir : (state.walls.flatMap (mirrorWall (basePlaced state))).filter
        (fun m => m.corner) = [] := by
      rw [List.filter_eq_nil_iff]
      intro p hp
      rw [List.mem_flatMap] at hp
      obtain ⟨wall, _, hp⟩ := hp
      obtain ⟨_, _, _, _, _, _, hcf, _⟩ := mirrorWall_mem (basePlaced state) wall p hp
      simp [hcf]
    rw [hanch, hrest, hmir, cornerPlacement_eq]
    split_ifs
    · simp [show cornerModule.corner = true from rfl]
    · simp
  · intro hshape wall _ hab acc
    have hz : Zone.mk 0 cornerItem.width ∈ cornerOccupied state.shape wall.id := by
      rw [cornerOccupied_eq, if_pos hshape]
      rcases hab with h | h <;> rw [h] <;> simp
    unfold occupiedZonesFor
    apply (sortZones_perm _).mem_iff.mpr
    rw [List.mem_append]
    exact Or.inr (List.mem_append_right _ hz)

/-- **C8 witness**: in a concrete L-shaped room the filtered output is
exactly the corner module, and its footprint is among wall-A's occupied
zones for the empty accumulator. -/
theorem c8_corner_placement_witness :
    ((generateLayout (RoomState.mk "L-SHAPED" [Wall.mk "wall-A" 3000 [], Wall.mk "wall-B" 2000 []])).1.filter
        (fun m => m.corner)) =
      (if ("L-SHAPED" : String) = "L-SHAPED" ∨ ("L-SHAPED" : String) = "U-SHAPED"
        then [cornerModule] else []) ∧
    Zone.mk 0 cornerItem.width ∈
      occupiedZonesFor "L-SHAPED" [] (Wall.mk "wall-A" 3000 []) := by
  constructor
  · exact (c8_corner_placement
      (RoomState.mk "L-SHAPED" [Wall.mk "wall-A" 3000 [], Wall.mk "wall-B" 2000 []])).1
  · exact (c8_corner_placement
      (RoomState.mk "L-SHAPED" [Wall.mk "wall-A" 3000 [], Wall.mk "wall-B" 2000 []])).2.2.2.2
      (Or.inl rfl) (Wall.mk "wall-A" 3000 []) (by simp) (Or.inl rfl) []

/-! ### Claim C1: greedy placements never overlap -/

theorem fill_subset_seg (wid : String) (seg : Zone) (p : PlacedModule)
    (hp : p ∈ fillSegment wid seg.stop seg.start) :
    ∀ x : ℚ, (moduleZone p).memQ x → seg.memQ x := by
  have hf := fillSegment_facts wid seg.stop seg.start p hp
  intro x hx
  exact ⟨le_trans hf.1 hx.1, lt_of_lt_of_le hx.2 hf.2.1⟩

theorem occupiedZonesFor_proper (shape : String) (acc : List PlacedModule) (wall : Wall)
    (hobs : ∀ o ∈ wall.obstacles, 0 ≤ o.width)
    (hacc : ∀ p ∈ acc, p.type = ModuleType.base → 0 < p.width) :
    ∀ z ∈ occupiedZonesFor shape acc wall, z.start ≤ z.stop := by
  intro z hz
  unfold occupiedZonesFor at hz
  have hz' := (sortZones_perm _).mem_iff.mp hz
  rw [List.mem_append] at hz'
  rcases hz' with hz' | hz'
  · unfold buildBlockedZones at hz'
    have hz2 := (sortZones_perm _).mem_iff.mp hz'
    rw [List.mem_filterMap] at hz2
    obtain ⟨o, ho, hzo⟩ := hz2
    by_cases ht : o.type = "door" ∨ o.type = "column"
    · rw [if_pos ht] at hzo
      have hw := hobs o ho
      obtain rfl := Option.some.inj hzo
      show o.position - o.width / 2 ≤ o.position + o.width / 2
      linarith
    · rw [if_neg ht] at hzo
      exact absurd hzo (by simp)
  · rw [List.mem_append] at hz'
    rcases hz' with hz' | hz'
    · rw [List.mem_map] at hz'
      obtain ⟨p, hpf, hzp⟩ := hz'
      rw [List.mem_filter] at hpf
      have hpd : p.wallId = wall.id ∧ p.type = ModuleType.base := by
        have h2 := hpf.2
        simpa using h2
      have hw := hacc p hpf.1 hpd.2
      rw [← hzp]
      show p.position ≤ p.position + p.width
      linarith
    · have hzv := cornerOccupied_mem shape wall.id z hz'
      rw [hzv, cornerItem_eq]
      norm_num

theorem greedyWall_pairwise_disj (shape : String) (acc : List PlacedModule) (wall : Wall)
    (hproper : ∀ z ∈ occupiedZonesFor shape acc wall, z.start ≤ z.stop) :
    (greedyWall shape acc wall).Pairwise
      (fun p q => (moduleZone p).disj (moduleZone q)) := by
  unfold greedyWall
  have hsorM : (mergeZones (occupiedZonesFor shape acc wall)).Pairwise
      (fun a b => a.start ≤ b.start) := (mergeZones_pairwise _).imp (fun h => h.1)
  have hprM : ∀ z ∈ mergeZones (occupiedZonesFor shape acc wall), z.start ≤ z.stop := by
    apply mergeZones_pres _ _ _ hproper
    intro a b ha _
    exact le_trans ha (le_max_left _ _)
  rw [List.pairwise_flatMap]
  constructor
  · intro seg _
    apply (fillSegment_pairwise wall.id seg.stop seg.start).imp
    intro p q hle
    exact disj_of_le (moduleZone p) (moduleZone q) hle
  · have hfree := sweep_free_pairwise wall.length 0
      (mergeZones (occupiedZonesFor shape acc wall)) hsorM hprM
    apply hfree.imp
    intro s s' hdisj p hp q hq x hxp hxq
    exact hdisj x (fill_subset_seg wall.id s p hp x hxp)
      (fill_subset_seg wall.id s' q hq x hxq)

theorem greedyWall_cross_disj (shape : String) (acc : List PlacedModule) (wall : Wall)
    (p : PlacedModule) (hp : p ∈ acc) (hpw : p.wallId = wall.id)
    (hpb : p.type = ModuleType.base)
    (q : PlacedModule) (hq : q ∈ greedyWall shape acc wall) :
    (moduleZone p).disj (moduleZone q) := by
  obtain ⟨seg, hseg, hfill⟩ := greedyWall_mem shape acc wall q hq
  intro x hxp hxq
  have hxseg : seg.memQ x := fill_subset_seg wall.id seg q hfill x hxq
  have hzmem : moduleZone p ∈ occupiedZonesFor shape acc wall := by
    unfold occupiedZonesFor
    apply (sortZones_perm _).mem_iff.mpr
    rw [List.mem_append]
    refine Or.inr (List.mem_append_left _ ?_)
    exact List.mem_map_of_mem _ (List.mem_filter.mpr ⟨hp, by simp [hpw, hpb]⟩)
  obtain ⟨y, hy, hxy⟩ := mergeZones_cover _ _ hzmem x hxp
  have hsorM : (mergeZones (occupiedZonesFor shape acc wall)).Pairwise
      (fun a b => a.start ≤ b.start) := (mergeZones_pairwise _).imp (fun h => h.1)
  exact sweep_disjoint wall.length 0 _ hsorM seg hseg y hy x hxseg hxy

theorem greedyPass_pairwise (shape : String) (walls : List Wall) (init : List PlacedModule)
    (hww : ∀ w ∈ walls, ∀ o ∈ w.obstacles, 0 ≤ o.width)
    (hwidth : ∀ p ∈ init, p.type = ModuleType.base → 0 < p.width)
    (hpw : init.Pairwise (fun p q =>
      p.wallId = q.wallId → p.type = ModuleType.base → q.type = ModuleType.base →
        (isGreedyModule p ∨ isGreedyModule q) → (moduleZone p).disj (moduleZone q))) :
    (greedyPass shape walls init).Pairwise (fun p q =>
      p.wallId = q.wallId → p.type = ModuleType.base → q.type = ModuleType.base →
        (isGreedyModule p ∨ isGreedyModule q) → (moduleZone p).disj (moduleZone q)) ∧
      ∀ p ∈ greedyPass shape walls init, p.type = ModuleType.base → 0 < p.width := by
  induction walls generalizing init with
  | nil => exact ⟨by simpa [greedyPass] using hpw, by simpa [greedyPass] using hwidth⟩
  | cons w ws ih =>
    simp only [greedyPass, List.foldl_cons]
    have hproper := occupiedZonesFor_proper shape init w
      (hww w (List.mem_cons_self ..)) hwidth
    apply ih (init ++ greedyWall shape init w)
      (fun w' hw' => hww w' (List.mem_cons_of_mem _ hw'))
    · intro p hp hb
      rcases List.mem_append.mp hp with h1 | h1
      · exact hwidth p h1 hb
      · obtain ⟨seg, _, hfill⟩ := greedyWall_mem shape init w p h1
        have hf := fillSegment_facts w.id seg.stop seg.start p hfill
        linarith [hf.2.2.1]
    · rw [List.pairwise_append]
      refine ⟨hpw, ?_, ?_⟩
      · apply (greedyWall_pairwise_disj shape init w hproper).imp
        intro p q hd _ _ _ _
        exact hd
      · intro p hp q hq hid hpb _ _
        have hqf : q.wallId = w.id := by
          obtain ⟨seg, _, hfill⟩ := greedyWall_mem shape init w q hq
          exact (fillSegment_facts w.id seg.stop seg.start q hfill).2.2.2.1
        exact greedyWall_cross_disj shape init w p hp (hid.trans hqf) hpb q hq

/-- **C1** (amended: the invariant holds for the greedy fill relative to
everything else, under nonnegative obstacle widths, but not between two
anchor modules, between an anchor and the corner, or between a floor module
and its mirrored upper module — the source checks anchors only against
door/column zones, not against other placed modules).  In the returned
placement, any two base-category modules on the same wall, at least one of
which was placed by greedy fill, have disjoint half-open footprints. -/
theorem c1_amended (state : RoomState)
    (hobs : ∀ wall ∈ state.walls, ∀ o ∈ wall.obstacles, 0 ≤ o.width) :
    (generateLayout state).1.Pairwise (fun p q =>
      p.wallId = q.wallId → p.type = ModuleType.base → q.type = ModuleType.base →
        (isGreedyModule p ∨ isGreedyModule q) → (moduleZone p).disj (moduleZone q)) := by
  have hinitng : ∀ p ∈ anchorsPlaced state ++ cornerPlacement state.shape,
      ¬ isGreedyModule p := by
    intro p hp hg
    rcases List.mem_append.mp hp with h1 | h1
    · obtain ⟨_, _, _, _, _, hanch, _⟩ := anchorsPlaced_mem state p h1
      have hn := hg.2.1
      rcases hanch with h2 | h2 <;> rw [h2] at hn <;> exact absurd hn (by simp)
    · rw [cornerPlacement_eq] at h1
      split_ifs at h1
      · rw [List.mem_singleton] at h1
        have hc := hg.2.2
        rw [h1] at hc
        simp [cornerModule] at hc
      · exact absurd h1 (List.not_mem_nil p)
  have hinitw : ∀ p ∈ anchorsPlaced state ++ cornerPlacement state.shape,
      p.type = ModuleType.base → 0 < p.width := by
    intro p hp _
    rcases List.mem_append.mp hp with h1 | h1
    · obtain ⟨_, _, _, _, _, _, hw, _⟩ := anchorsPlaced_mem state p h1
      rw [hw]; norm_num
    · rw [cornerPlacement_eq] at h1
      split_ifs at h1
      · rw [List.mem_singleton] at h1
        rw [h1, cornerModule_fields.2.1]; norm_num
      · exact absurd h1 (List.not_mem_nil p)
  have hinitpw : (anchorsPlaced state ++ cornerPlacement state.shape).Pairwise
      (fun p q => p.wallId = q.wallId → p.type = ModuleType.base →
        q.type = ModuleType.base → (isGreedyModule p ∨ isGreedyModule q) →
        (moduleZone p).disj (moduleZone q)) := by
    apply List.pairwise_of_forall_mem_list
    intro a ha b hb _ _ _ hg
    rcases hg with hg | hg
    · exact absurd hg (hinitng a ha)
    · exact absurd hg (hinitng b hb)
  obtain ⟨hbase_pw, _⟩ := greedyPass_pairwise state.shape state.walls
    (anchorsPlaced state ++ cornerPlacement state.shape) hobs hinitw hinitpw
  have hmirtype : ∀ a ∈ state.walls.flatMap (mirrorWall (basePlaced state)),
      a.type = ModuleType.wall := by
    intro a ha
    rw [List.mem_flatMap] at ha
    obtain ⟨wall, _, ha⟩ := ha
    obtain ⟨_, _, _, _, ht, _⟩ := mirrorWall_mem (basePlaced state) wall a ha
    exact ht
  show (basePlaced state ++ state.walls.flatMap (mirrorWall (basePlaced state))).Pairwise _
  rw [List.pairwise_append]
  refine ⟨hbase_pw, ?_, ?_⟩
  · apply List.pairwise_of_forall_mem_list
    intro a ha b _ _ hab _ _
    exact absurd (hab.symm.trans (hmirtype a ha)) (by simp)
  · intro p _ q hq _ _ hqb _
    exact absurd (hqb.symm.trans (hmirtype q hq)) (by simp)

/-- **C1 witness**: a plain 3000 mm wall with no obstacles satisfies the
nonnegative-width hypothesis, and the guarantee holds for it. -/
theorem c1_amended_witness :
    (∀ wall ∈ (RoomState.mk "LINEAR" [Wall.mk "wall-A" 3000 []]).walls,
      ∀ o ∈ wall.obstacles, 0 ≤ o.width) ∧
    (generateLayout (RoomState.mk "LINEAR" [Wall.mk "wall-A" 3000 []])).1.Pairwise (fun p q =>
      p.wallId = q.wallId → p.type = ModuleType.base → q.type = ModuleType.base →
        (isGreedyModule p ∨ isGreedyModule q) → (moduleZone p).disj (moduleZone q)) := by
  have h : ∀ wall ∈ (RoomState.mk "LINEAR" [Wall.mk "wall-A" 3000 []]).walls,
      ∀ o ∈ wall.obstacles, 0 ≤ o.width := by
    intro wall hw o ho
    rw [List.mem_singleton] at hw
    subst hw
    exact absurd ho (List.not_mem_nil o)
  exact ⟨h, c1_amended _ h⟩

/-- **C1 counterexample**: the claim as stated — any two placed modules
sharing a wall have disjoint footprints — is false.  Two water points at
the same position yield two sink modules both occupying `[1200, 1800)` on
wall-A: the anchor pass checks sinks only against door/column zones, never
against other placed modules. -/
theorem c1_counterexample :
    ¬ ((generateLayout (RoomState.mk "LINEAR"
        [Wall.mk "wall-A" 3000
          [Obstacle.mk "water_point" 1500 0, Obstacle.mk "water_point" 1500 0]])).1.Pairwise
      (fun p q => p.wallId = q.wallId → (moduleZone p).disj (moduleZone q))) := by
  intro hpw
  have hanch : anchorsPlaced (RoomState.mk "LINEAR"
      [Wall.mk "wall-A" 3000
        [Obstacle.mk "water_point" 1500 0, Obstacle.mk "water_point" 1500 0]]) =
      [{ ref := "SINK60", type := ModuleType.base, wallId := "wall-A", position := 1200,
         width := 600, label := "Fregadero", price := 65, anchor := some "water_point" },
       { ref := "SINK60", type := ModuleType.base, wallId := "wall-A", position := 1200,
         width := 600, label := "Fregadero", price := 65, anchor := some "water_point" }] := by
    norm_num [anchorsPlaced, wallAnchorResults, trySink, sinkItem_eq, buildBlockedZones,
      sortZones, List.insertionSort, List.filterMap, isConflict, List.filter, List.flatMap]
  obtain ⟨rest, hsplit⟩ := greedyPass_prefix "LINEAR"
    (RoomState.mk "LINEAR"
      [Wall.mk "wall-A" 3000
        [Obstacle.mk "water_point" 1500 0, Obstacle.mk "water_point" 1500 0]]).walls
    (anchorsPlaced (RoomState.mk "LINEAR"
      [Wall.mk "wall-A" 3000
        [Obstacle.mk "water_point" 1500 0, Obstacle.mk "water_point" 1500 0]]) ++
      cornerPlacement "LINEAR")
  have hfst : (generateLayout (RoomState.mk "LINEAR"
      [Wall.mk "wall-A" 3000
        [Obstacle.mk "water_point" 1500 0, Obstacle.mk "water_point" 1500 0]])).1 =
      ((anchorsPlaced (RoomState.mk "LINEAR"
        [Wall.mk "wall-A" 3000
          [Obstacle.mk "water_point" 1500 0, Obstacle.mk "water_point" 1500 0]]) ++
        cornerPlacement "LINEAR") ++ rest) ++
        (RoomState.mk "LINEAR"
          [Wall.mk "wall-A" 3000
            [Obstacle.mk "water_point" 1500 0, Obstacle.mk "water_point" 1500 0]]).walls.flatMap
          (mirrorWall (basePlaced (RoomState.mk "LINEAR"
            [Wall.mk "wall-A" 3000
              [Obstacle.mk "water_point" 1500 0, Obstacle.mk "water_point" 1500 0]]))) := by
    show basePlaced _ ++ _ = _
    rw [show basePlaced (RoomState.mk "LINEAR"
      [Wall.mk "wall-A" 3000
        [Obstacle.mk "water_point" 1500 0, Obstacle.mk "water_point" 1500 0]]) = _ from hsplit]
  rw [hfst] at hpw
  have h1 := (List.pairwise_append.mp hpw).1
  have h2 := (List.pairwise_append.mp h1).1
  have h3 := (List.pairwise_append.mp h2).1
  rw [hanch] at h3
  rcases List.pairwise_cons.mp h3 with ⟨hrel, _⟩
  have hd := hrel _ (List.mem_singleton.mpr rfl) rfl
  exact hd 1200 ⟨by norm_num [moduleZone], by norm_num [moduleZone]⟩
    ⟨by norm_num [moduleZone], by norm_num [moduleZone]⟩

/-! ### Claim C3: placements stay inside their wall -/

theorem greedyPass_bounds_aux (state : RoomState) (ws : List Wall) (init : List PlacedModule)
    (hsub : ∀ w ∈ ws, w ∈ state.walls)
    (hnd : ∀ w ∈ ws, ∀ w' ∈ state.walls, w'.id = w.id → w' = w)
    (hcor : ∀ w ∈ ws, w.id ≠ "corner-AB")
    (hlen : ∀ w ∈ ws, 0 < w.length)
    (hobs : ∀ w ∈ ws, ∀ o ∈ w.obstacles, (o.type = "door" ∨ o.type = "column") →
      o.position - o.width / 2 ≤ w.length)
    (hinv : ∀ p ∈ init,
      (p.corner = true → p.wallId = "corner-AB") ∧
      (p.corner = false → p.type = ModuleType.base ∧ 0 ≤ p.position ∧ 0 < p.width ∧
        ∀ w' ∈ state.walls, w'.id = p.wallId → p.position + p.width ≤ w'.length)) :
    ∀ p ∈ greedyPass state.shape ws init,
      (p.corner = true → p.wallId = "corner-AB") ∧
      (p.corner = false → p.type = ModuleType.base ∧ 0 ≤ p.position ∧ 0 < p.width ∧
        ∀ w' ∈ state.walls, w'.id = p.wallId → p.position + p.width ≤ w'.length) := by
  induction ws generalizing init with
  | nil => simpa [greedyPass] using hinv
  | cons w rest ih =>
    simp only [greedyPass, List.foldl_cons]
    have hwmem : w ∈ state.walls := hsub w (List.mem_cons_self ..)
    have hstart : ∀ z ∈ mergeZones (occupiedZonesFor state.shape init w),
        z.start ≤ w.length := by
      apply mergeZones_pres (fun z => z.start ≤ w.length)
      · intro a b ha _
        exact ha
      · intro z hz
        unfold occupiedZonesFor at hz
        have hz' := (sortZones_perm _).mem_iff.mp hz
        rw [List.mem_append] at hz'
        rcases hz' with hz' | hz'
        · unfold buildBlockedZones at hz'
          have hz2 := (sortZones_perm _).mem_iff.mp hz'
          rw [List.mem_filterMap] at hz2
          obtain ⟨o, ho, hzo⟩ := hz2
          by_cases ht : o.type = "door" ∨ o.type = "column"
          · rw [if_pos ht] at hzo
            obtain rfl := Option.some.inj hzo
            exact hobs w (List.mem_cons_self ..) o ho ht
          · rw [if_neg ht] at hzo
            exact absurd hzo (by simp)
        · rw [List.mem_append] at hz'
          rcases hz' with hz' | hz'
          · rw [List.mem_map] at hz'
            obtain ⟨p, hpf, hzp⟩ := hz'
            rw [List.mem_filter] at hpf
            have hpd : p.wallId = w.id ∧ p.type = ModuleType.base := by
              have h2 := hpf.2
              simpa using h2
            have hpcf : p.corner = false := by
              rcases Bool.eq_false_or_eq_true p.corner with hb | hb
              · exfalso
                have h3 := (hinv p hpf.1).1 hb
                have h4 := hpd.1
                rw [h3] at h4
                exact hcor w (List.mem_cons_self ..) h4.symm
              · exact hb
            obtain ⟨_, hpos, hwid, hbnd⟩ := (hinv p hpf.1).2 hpcf
            have hble := hbnd w hwmem hpd.1.symm
            rw [← hzp]
            show p.position ≤ w.length
            linarith
          · have hzv := cornerOccupied_mem state.shape w.id z hz'
            rw [hzv]
            exact le_of_lt (hlen w (List.mem_cons_self ..))
    apply ih (init ++ greedyWall state.shape init w)
      (fun w' hw' => hsub w' (List.mem_cons_of_mem _ hw'))
      (fun w' hw' => hnd w' (List.mem_cons_of_mem _ hw'))
      (fun w' hw' => hcor w' (List.mem_cons_of_mem _ hw'))
      (fun w' hw' => hlen w' (List.mem_cons_of_mem _ hw'))
      (fun w' hw' => hobs w' (List.mem_cons_of_mem _ hw'))
    intro p hp
    rcases List.mem_append.mp hp with h1 | h1
    · exact hinv p h1
    · obtain ⟨seg, hseg, hfill⟩ := greedyWall_mem state.shape init w p h1
      have hff := fillSegment_facts w.id seg.stop seg.start p hfill
      have hsegb := sweep_bounds w.length 0 (mergeZones (occupiedZonesFor state.shape init w))
        (le_refl 0) hstart seg hseg
      constructor
      · intro hc
        rw [hff.2.2.2.2.2.2] at hc
        exact absurd hc (by simp)
      · intro _
        refine ⟨hff.2.2.2.2.1, le_trans hsegb.1 hff.1, by linarith [hff.2.2.1], ?_⟩
        intro w' hw' hid
        have hw'w : w' = w := hnd w (List.mem_cons_self ..) w' hw'
          (by rw [hid, hff.2.2.2.1])
        rw [hw'w]
        exact le_trans hff.2.1 hsegb.2.2

/-- **C3** (amended: in addition to positive wall lengths, the wall
identifiers must be distinct and distinct from the synthetic corner tag,
and each door/column's blocked zone must begin within its wall — otherwise
the greedy fill works on free segments that extend beyond the wall).  Every
placed module without the corner flag satisfies `0 ≤ position` and
`position + width ≤ length` of the wall bearing its `wallId`; the corner
module itself sits at position 0 with width 930 (the catalog corner width),
occupying `[0, 930)` on wall-A and wall-B. -/
theorem c3_amended (state : RoomState)
    (hlen : ∀ wall ∈ state.walls, 0 < wall.length)
    (hids : state.walls.Pairwise (fun a b => a.id ≠ b.id))
    (hcor : ∀ wall ∈ state.walls, wall.id ≠ "corner-AB")
    (hobs : ∀ wall ∈ state.walls, ∀ o ∈ wall.obstacles,
      (o.type = "door" ∨ o.type = "column") → o.position - o.width / 2 ≤ wall.length) :
    (∀ p ∈ (generateLayout state).1, p.corner = false →
      0 ≤ p.position ∧ ∀ wall ∈ state.walls, wall.id = p.wallId →
        p.position + p.width ≤ wall.length) ∧
    (∀ p ∈ (generateLayout state).1, p.corner = true →
      p.position = 0 ∧ p.width = 930) := by
  have huniq := walls_id_unique state.walls hids
  have hinit : ∀ p ∈ anchorsPlaced state ++ cornerPlacement state.shape,
      (p.corner = true → p.wallId = "corner-AB") ∧
      (p.corner = false → p.type = ModuleType.base ∧ 0 ≤ p.position ∧ 0 < p.width ∧
        ∀ w' ∈ state.walls, w'.id = p.wallId → p.position + p.width ≤ w'.length) := by
    intro p hp
    rcases List.mem_append.mp hp with h1 | h1
    · obtain ⟨wall, hwm, hid, htype, hcf, _, hw, hpos, hbnd⟩ := anchorsPlaced_mem state p h1
      constructor
      · intro hc
        rw [hcf] at hc
        exact absurd hc (by simp)
      · intro _
        refine ⟨htype, hpos, by rw [hw]; norm_num, ?_⟩
        intro w' hw' hid'
        rw [huniq w' hw' wall hwm (by rw [hid', hid])]
        exact hbnd
    · rw [cornerPlacement_eq] at h1
      split_ifs at h1
      · rw [List.mem_singleton] at h1
        subst h1
        constructor
        · intro _
          exact cornerModule_fields.2.2.2.1
        · intro hc
          rw [cornerModule_fields.2.2.1] at hc
          exact absurd hc (by simp)
      · exact absurd h1 (List.not_mem_nil p)
  have hbase := greedyPass_bounds_aux state state.walls
    (anchorsPlaced state ++ cornerPlacement state.shape)
    (fun w hw => hw)
    (fun w hw w' hw' heq => huniq w' hw' w hw heq)
    hcor hlen hobs hinit
  have hmirror : ∀ q ∈ state.walls.flatMap (mirrorWall (basePlaced state)),
      q.corner = false ∧ 0 ≤ q.position ∧
        ∀ w' ∈ state.walls, w'.id = q.wallId → q.position + q.width ≤ w'.length := by
    intro q hq
    rw [List.mem_flatMap] at hq
    obtain ⟨wall, hwm, hq⟩ := hq
    obtain ⟨p, hpm, hpw, hpb, _, _, hqc, hqw, hqpos, hqwid⟩ :=
      mirrorWall_mem (basePlaced state) wall q hq
    have hpfacts := hbase p hpm
    have hpcf : p.corner = false := by
      rcases Bool.eq_false_or_eq_true p.corner with hb | hb
      · exfalso
        have h3 := hpfacts.1 hb
        have h4 := hpw
        rw [h3] at h4
        exact hcor wall hwm h4.symm
      · exact hb
    obtain ⟨_, hppos, _, hpbnd⟩ := hpfacts.2 hpcf
    refine ⟨hqc, by rw [hqpos]; exact hppos, ?_⟩
    intro w' hw' hid'
    have := hpbnd w' hw' (by rw [hid', hqw, hpw])
    rw [hqpos]
    linarith
  constructor
  · intro p hp hc
    rcases List.mem_append.mp hp with h1 | h1
    · obtain ⟨_, hpos, _, hbnd⟩ := (hbase p h1).2 hc
      exact ⟨hpos, hbnd⟩
    · obtain ⟨_, hpos, hbnd⟩ := hmirror p h1
      exact ⟨hpos, hbnd⟩
  · intro p hp hc
    rcases List.mem_append.mp hp with h1 | h1
    · obtain ⟨rest, hsplit, hrmem⟩ := greedyPass_prefix_mem state.shape state.walls
        (anchorsPlaced state ++ cornerPlacement state.shape)
      rw [show basePlaced state = _ from hsplit] at h1
      rcases List.mem_append.mp h1 with h2 | h2
      · rcases List.mem_append.mp h2 with h3 | h3
        · obtain ⟨_, _, _, _, hcf, _⟩ := anchorsPlaced_mem state p h3
          rw [hcf] at hc
          exact absurd hc (by simp)
        · rw [cornerPlacement_eq] at h3
          split_ifs at h3
          · rw [List.mem_singleton] at h3
            subst h3
            exact ⟨cornerModule_fields.1, cornerModule_fields.2.1⟩
          · exact absurd h3 (List.not_mem_nil p)
      · obtain ⟨wall, _, acc, seg, _, hfill⟩ := hrmem p h2
        have hff := fillSegment_facts wall.id seg.stop seg.start p hfill
        rw [hff.2.2.2.2.2.2] at hc
        exact absurd hc (by simp)
    · obtain ⟨hqc, _⟩ := hmirror p h1
      rw [hqc] at hc
      exact absurd hc (by simp)

/-- **C3 witness**: a 3000 mm obstacle-free wall satisfies every
hypothesis, and the bounds hold for it. -/
theorem c3_amended_witness :
    (∀ wall ∈ (RoomState.mk "LINEAR" [Wall.mk "wall-A" 3000 []]).walls, 0 < wall.length) ∧
    ((RoomState.mk "LINEAR" [Wall.mk "wall-A" 3000 []]).walls.Pairwise
      (fun a b => a.id ≠ b.id)) ∧
    (∀ wall ∈ (RoomState.mk "LINEAR" [Wall.mk "wall-A" 3000 []]).walls,
      wall.id ≠ "corner-AB") ∧
    (∀ wall ∈ (RoomState.mk "LINEAR" [Wall.mk "wall-A" 3000 []]).walls,
      ∀ o ∈ wall.obstacles, (o.type = "door" ∨ o.type = "column") →
        o.position - o.width / 2 ≤ wall.length) ∧
    ((∀ p ∈ (generateLayout (RoomState.mk "LINEAR" [Wall.mk "wall-A" 3000 []])).1,
        p.corner = false → 0 ≤ p.position ∧
          ∀ wall ∈ (RoomState.mk "LINEAR" [Wall.mk "wall-A" 3000 []]).walls,
            wall.id = p.wallId → p.position + p.width ≤ wall.length) ∧
      (∀ p ∈ (generateLayout (RoomState.mk "LINEAR" [Wall.mk "wall-A" 3000 []])).1,
        p.corner = true → p.position = 0 ∧ p.width = 930)) := by
  have h1 : ∀ wall ∈ (RoomState.mk "LINEAR" [Wall.mk "wall-A" 3000 []]).walls,
      0 < wall.length := by
    intro wall hw
    rw [List.mem_singleton] at hw
    subst hw
    norm_num
  have h2 : (RoomState.mk "LINEAR" [Wall.mk "wall-A" 3000 []]).walls.Pairwise
      (fun a b => a.id ≠ b.id) := List.pairwise_singleton _ _
  have h3 : ∀ wall ∈ (RoomState.mk "LINEAR" [Wall.mk "wall-A" 3000 []]).walls,
      wall.id ≠ "corner-AB" := by
    intro wall hw
    rw [List.mem_singleton] at hw
    subst hw
    decide
  have h4 : ∀ wall ∈ (RoomState.mk "LINEAR" [Wall.mk "wall-A" 3000 []]).walls,
      ∀ o ∈ wall.obstacles, (o.type = "door" ∨ o.type = "column") →
        o.position - o.width / 2 ≤ wall.length := by
    intro wall hw o ho
    rw [List.mem_singleton] at hw
    subst hw
    exact absurd ho (List.not_mem_nil o)
  exact ⟨h1, h2, h3, h4, c3_amended _ h1 h2 h3 h4⟩

/-- **C3 counterexample**: the claim as stated — positive wall lengths
alone suffice — is false.  On a 100 mm wall with a door centred at 400 mm
(blocked zone `[350, 450)`, entirely beyond the wall), the free-segment
sweep yields `[0, 350)` and the greedy fill places a 300 mm module at
position 0, overrunning the wall: `position + width = 300 > 100`. -/
theorem c3_counterexample :
    ∃ p ∈ (generateLayout (RoomState.mk "LINEAR"
        [Wall.mk "wall-A" 100 [Obstacle.mk "door" 400 100]])).1,
      p.corner = false ∧ p.wallId = "wall-A" ∧
        (100 : ℚ) < p.position + p.width := by
  have hanch : anchorsPlaced (RoomState.mk "LINEAR"
      [Wall.mk "wall-A" 100 [Obstacle.mk "door" 400 100]]) = [] := by
    norm_num [anchorsPlaced, wallAnchorResults, List.filter, List.flatMap, List.filterMap]
  have hfree : findFreeSegments (100 : ℚ) (occupiedZonesFor "LINEAR" []
      (Wall.mk "wall-A" 100 [Obstacle.mk "door" 400 100])) = [Zone.mk 0 350] := by
    norm_num [occupiedZonesFor, cornerOccupied_eq, buildBlockedZones, sortZones,
      List.insertionSort, List.orderedInsert, List.filterMap, List.filter, moduleZone,
      findFreeSegments, mergeZones, mergeRun, sweep]
  have hfA : getBaseModulesByWidth.find? (fun m => decide (m.width ≤ (350 : ℚ) - 0)) =
      some { ref := "B30", label := "Bajo 30", type := ModuleType.base, width := 300, depth := 600, price := 35 } := by
    rw [getBaseModulesByWidth_eq]
    norm_num [List.find?]
  have hfB : getBaseModulesByWidth.find? (fun m => decide (m.width ≤ (350 : ℚ) - 300)) =
      none := by
    rw [getBaseModulesByWidth_eq]
    norm_num [List.find?]
  have hfill : fillSegment "wall-A" 350 0 =
      [mkGreedy "wall-A" 0 { ref := "B30", label := "Bajo 30", type := ModuleType.base, width := 300, depth := 600, price := 35 }] := by
    rw [fillSegment_cons "wall-A" 350 0 _ (by norm_num) hfA,
      show (0 : ℚ) + ({ ref := "B30", label := "Bajo 30", type := ModuleType.base, width := 300, depth := 600, price := 35 } : CatalogItem).width = 300 from by norm_num,
      fillSegment_stop "wall-A" 350 300 hfB]
  have hbp : basePlaced (RoomState.mk "LINEAR"
      [Wall.mk "wall-A" 100 [Obstacle.mk "door" 400 100]]) =
      [mkGreedy "wall-A" 0 { ref := "B30", label := "Bajo 30", type := ModuleType.base, width := 300, depth := 600, price := 35 }] := by
    unfold basePlaced
    rw [hanch, cornerPlacement_eq, if_neg (by decide)]
    simp only [greedyPass, List.foldl_cons, List.foldl_nil, List.nil_append]
    unfold greedyWall
    rw [show (Wall.mk "wall-A" 100 [Obstacle.mk "door" 400 100]).length = (100 : ℚ)
      from rfl]
    rw [hfree]
    simp only [List.flatMap_cons, List.flatMap_nil, List.append_nil]
    exact hfill
  refine ⟨mkGreedy "wall-A" 0 { ref := "B30", label := "Bajo 30", type := ModuleType.base, width := 300, depth := 600, price := 35 }, ?_, rfl, rfl, by norm_num [mkGreedy]⟩
  show _ ∈ basePlaced _ ++ _
  apply List.mem_append_left
  rw [hbp]
  exact List.mem_singleton.mpr rfl

/-! ### Claim C2: wall-mirror eligibility -/

/-- **C2** (amended: anchor floor modules are eligible mirroring inputs
exactly like ordinary floor modules, but the corner module is not — its
synthetic wallId `corner-AB` matches no wall, so the mirror pass never
sees it).  For every base-category module of the base pass whose wallId is
an actual wall's id and whose footprint overlaps no window on that wall,
if any upper-catalog module is no wider than it (exact width or fallback),
an upper module is appended at the same start offset on the same wall. -/
theorem c2_amended (state : RoomState) (wall : Wall) (hw : wall ∈ state.walls)
    (p : PlacedModule) (hp : p ∈ basePlaced state)
    (hid : p.wallId = wall.id) (htype : p.type = ModuleType.base)
    (hwin : overlapsWindow (windowZones wall.obstacles) p.position
      (p.position + p.width) = false)
    (hcand : ∃ m ∈ getWallModulesByWidth, m.width ≤ p.width) :
    ∃ q ∈ (generateLayout state).1, q.type = ModuleType.wall ∧ q.wallId = wall.id ∧
      q.position = p.position ∧ q.width ≤ p.width := by
  have hne : mirrorOne wall.id (windowZones wall.obstacles) p ≠ [] := by
    simp only [mirrorOne]
    rw [if_neg (by simp [hwin])]
    cases hfe : getWallModulesByWidth.find? (fun wm => decide (wm.width = p.width)) with
    | some mw => simp
    | none =>
      cases hff : getWallModulesByWidth.find? (fun wm => decide (wm.width ≤ p.width)) with
      | some mw => simp
      | none =>
        obtain ⟨m, hm, hmw⟩ := hcand
        have h2 := List.find?_eq_none.mp hff m hm
        simp [hmw] at h2
  obtain ⟨q, hq⟩ := List.exists_mem_of_ne_nil _ hne
  obtain ⟨hqt, _, _, hqw, hqpos, hqwid⟩ :=
    mirrorOne_mem wall.id (windowZones wall.obstacles) p q hq
  refine ⟨q, ?_, hqt, hqw, hqpos, hqwid⟩
  show q ∈ basePlaced state ++ _
  apply List.mem_append_right
  rw [List.mem_flatMap]
  refine ⟨wall, hw, ?_⟩
  unfold mirrorWall
  rw [List.mem_flatMap]
  exact ⟨p, List.mem_filter.mpr ⟨hp, by simp [hid, htype]⟩, hq⟩

/-- **C2 witness**: a sink anchor at `[1200, 1800)` on an obstacle-free
stretch is mirrored — an upper module is appended at offset 1200. -/
theorem c2_amended_witness :
    ((Wall.mk "wall-A" 3000 [Obstacle.mk "water_point" 1500 0]) ∈
      (RoomState.mk "LINEAR" [Wall.mk "wall-A" 3000 [Obstacle.mk "water_point" 1500 0]]).walls) ∧
    (({ ref := "SINK60", type := ModuleType.base, wallId := "wall-A", position := 1200, width := 600, label := "Fregadero", price := 65, anchor := some "water_point" } : PlacedModule) ∈
      basePlaced (RoomState.mk "LINEAR" [Wall.mk "wall-A" 3000 [Obstacle.mk "water_point" 1500 0]])) ∧
    (∃ q ∈ (generateLayout (RoomState.mk "LINEAR"
        [Wall.mk "wall-A" 3000 [Obstacle.mk "water_point" 1500 0]])).1,
      q.type = ModuleType.wall ∧ q.wallId = "wall-A" ∧ q.position = (1200 : ℚ) ∧
        q.width ≤ (600 : ℚ)) := by
  have hanch : anchorsPlaced (RoomState.mk "LINEAR"
      [Wall.mk "wall-A" 3000 [Obstacle.mk "water_point" 1500 0]]) =
      [{ ref := "SINK60", type := ModuleType.base, wallId := "wall-A", position := 1200, width := 600, label := "Fregadero", price := 65, anchor := some "water_point" }] := by
    norm_num [anchorsPlaced, wallAnchorResults, trySink, sinkItem_eq, buildBlockedZones,
      sortZones, List.insertionSort, List.filterMap, isConflict, List.filter, List.flatMap]
  have hw : (Wall.mk "wall-A" 3000 [Obstacle.mk "water_point" 1500 0]) ∈
      (RoomState.mk "LINEAR" [Wall.mk "wall-A" 3000 [Obstacle.mk "water_point" 1500 0]]).walls :=
    List.mem_singleton.mpr rfl
  have hp : ({ ref := "SINK60", type := ModuleType.base, wallId := "wall-A", position := 1200, width := 600, label := "Fregadero", price := 65, anchor := some "water_point" } : PlacedModule) ∈
      basePlaced (RoomState.mk "LINEAR" [Wall.mk "wall-A" 3000 [Obstacle.mk "water_point" 1500 0]]) := by
    unfold basePlaced
    obtain ⟨rest, hsplit⟩ := greedyPass_prefix "LINEAR"
      (RoomState.mk "LINEAR" [Wall.mk "wall-A" 3000 [Obstacle.mk "water_point" 1500 0]]).walls
      (anchorsPlaced (RoomState.mk "LINEAR"
        [Wall.mk "wall-A" 3000 [Obstacle.mk "water_point" 1500 0]]) ++ cornerPlacement "LINEAR")
    rw [hsplit]
    apply List.mem_append_left
    apply List.mem_append_left
    rw [hanch]
    exact List.mem_singleton.mpr rfl
  refine ⟨hw, hp, ?_⟩
  exact c2_amended _ _ hw _ hp rfl rfl (by decide)
    ⟨{ ref := "A60", label := "Alto 60", type := ModuleType.wall, width := 600, depth := 350, price := 45 },
      by rw [getWallModulesByWidth_eq]; simp, by norm_num⟩

/-- **C2 counterexample**: the corner module is not an eligible mirroring
input.  In a small L-shaped room the returned placement is exactly the
corner module — no window covers it and a fallback upper module (900 mm ≤
930 mm) exists in the catalog, yet no upper (wall-category) module is
appended anywhere, contradicting the claim that the corner floor module is
mirrored like any other floor module. -/
theorem c2_counterexample :
    ((generateLayout (RoomState.mk "L-SHAPED"
        [Wall.mk "wall-A" 100 [], Wall.mk "wall-B" 100 []])).1 = [cornerModule]) ∧
    (∃ m ∈ getWallModulesByWidth, m.width ≤ cornerModule.width) ∧
    (∀ q ∈ (generateLayout (RoomState.mk "L-SHAPED"
        [Wall.mk "wall-A" 100 [], Wall.mk "wall-B" 100 []])).1,
      q.type ≠ ModuleType.wall) := by
  have h1 : (generateLayout (RoomState.mk "L-SHAPED"
      [Wall.mk "wall-A" 100 [], Wall.mk "wall-B" 100 []])).1 = [cornerModule] := by
    decide
  refine ⟨h1, ?_, ?_⟩
  · refine ⟨{ ref := "A90", label := "Alto 90", type := ModuleType.wall, width := 900, depth := 350, price := 65 },
      by rw [getWallModulesByWidth_eq]; simp, ?_⟩
    rw [cornerModule_fields.2.1]
    norm_num
  · intro q hq
    rw [h1, List.mem_singleton] at hq
    subst hq
    simp [cornerModule]

end Opspilot
